import Mathlib

/-!
Verification development for the custom template engine of
`packages/cli/src/enterprise/templates/engine.ts`.

The engine is a TypeScript class operating on plain JavaScript values
(strings, numbers, booleans, null/undefined, arrays, keyed objects).
This file gives a shallow embedding of that code:

* JavaScript runtime values are modelled by the inductive type `Value`;
  numbers are modelled as integers (no claim in scope depends on
  non-integer numerics, which are treated as unparseable, i.e. NaN).
* JavaScript objects / `Record<string, unknown>` maps are modelled as
  association lists `VarMap` looked up by first match; a stored
  `undefined` behaves exactly like an absent key for every read the
  engine performs (the code only ever compares reads with `undefined`),
  which `lookupVar` reflects by collapsing stored `vUndef` to `none`.
* The four regex-replacement passes of the interpolation sub-language
  are modelled by explicit left-to-right scanners whose match/replace
  behaviour follows the semantics of `String.prototype.replace` with a
  global regex: leftmost match, replacement text never rescanned by the
  same pass, scan resumes after the consumed span, and a failed match
  attempt advances one character.
* `new Date()` (read by the built-in `date` helper) is modelled by an
  explicit clock parameter `JsDate` threaded into compilation.
* Fallible operations (`throw new Error(...)`) return `Except String`.

All definitions are executable and compile by structural recursion so
that concrete runs reduce inside the kernel.
-/

/-- Left-brace character, the delimiter of the interpolation language. -/
abbrev lbrace : Char := '\x7b'

/-- Right-brace character. -/
abbrev rbrace : Char := '\x7d'

/-- JavaScript runtime values as far as the engine observes them.
`vUndef` is `undefined`, `vNull` is `null`; arrays and keyed objects
hold further values. Numbers are modelled as integers. -/
inductive Value where
  | vUndef
  | vNull
  | vBool (b : Bool)
  | vNum (n : Int)
  | vStr (s : String)
  | vArr (xs : List Value)
  | vObj (fields : List (String × Value))

mutual

/-- JavaScript `String(value)` conversion: `undefined`/`null` print their
names, booleans print `true`/`false`, numbers print in decimal, arrays
print their elements joined by `,` (with `null`/`undefined` elements
printed as the empty string, as `Array.prototype.join` does), and plain
objects print `[object Object]`. -/
def jsToString : Value → String
  | .vUndef => "undefined"
  | .vNull => "null"
  | .vBool b => if b then "true" else "false"
  | .vNum n => toString n
  | .vStr s => s
  | .vObj _ => "[object Object]"
  | .vArr xs => String.intercalate "," (arrElems xs)

/-- Element strings of an array for `Array.prototype.join`: `null` and
`undefined` become empty strings, every other element is stringified. -/
def arrElems : List Value → List String
  | [] => []
  | v :: r =>
    (match v with
     | .vNull => ""
     | .vUndef => ""
     | w => jsToString w) :: arrElems r

end

/-- JavaScript truthiness (`Boolean(v)`): `undefined`, `null`, `false`,
`0` and `""` are falsy, everything else (including arrays and objects)
is truthy. -/
def jsTruthy : Value → Bool
  | .vUndef => false
  | .vNull => false
  | .vBool b => b
  | .vNum n => n != 0
  | .vStr s => !s.isEmpty
  | .vArr _ => true
  | .vObj _ => true

/-- JavaScript whitespace as matched by `\s` (ASCII part; the Unicode
space characters also matched by `\s` play no role in any claim). -/
def isJsSpace (c : Char) : Bool :=
  c = ' ' || c = '\t' || c = '\n' || c = '\r' || c = '\x0b' || c = '\x0c'

/-- Regex word character `\w`, i.e. `[A-Za-z0-9_]`. -/
def isWordChar (c : Char) : Bool :=
  ('a' ≤ c && c ≤ 'z') || ('A' ≤ c && c ≤ 'Z') || ('0' ≤ c && c ≤ '9') || c = '_'

/-- Decimal digit run to a natural number; `none` if a non-digit occurs. -/
def digitsValGo (acc : Nat) : List Char → Option Nat
  | [] => some acc
  | c :: r => if c.isDigit then digitsValGo (acc * 10 + (c.toNat - '0'.toNat)) r else none

/-- Value of a non-empty decimal digit run. -/
def digitsVal : List Char → Option Nat
  | [] => none
  | l => digitsValGo 0 l

/-- JavaScript `Number(string)` restricted to the integer fragment: the
string is trimmed, the empty (or all-whitespace) string converts to `0`,
an optionally signed decimal integer converts to its value, and anything
else is NaN (`none`). Fractional, exponent, hexadecimal and `Infinity`
forms are modelled as NaN; no claim in scope exercises them. -/
def jsStrToNumber (s : String) : Option Int :=
  let t := ((s.data.dropWhile isJsSpace).reverse.dropWhile isJsSpace).reverse
  match t with
  | [] => some 0
  | '-' :: ds => (digitsVal ds).map (fun n => -(n : Int))
  | '+' :: ds => (digitsVal ds).map (fun n => (n : Int))
  | ds => (digitsVal ds).map (fun n => (n : Int))

/-- JavaScript `Number(value)`: `null` is 0, booleans are 0/1, strings
parse via `jsStrToNumber`, arrays convert through their join string,
`undefined` and plain objects are NaN (`none`). -/
def jsToNumber : Value → Option Int
  | .vUndef => none
  | .vNull => some 0
  | .vBool b => some (if b then 1 else 0)
  | .vNum n => some n
  | .vStr s => jsStrToNumber s
  | .vArr xs => jsStrToNumber (jsToString (.vArr xs))
  | .vObj _ => none

/-- JavaScript strict equality `===` as observable at the engine's use
sites: primitives compare structurally; arrays and objects compare by
reference and the operands reaching the engine's comparisons always come
from distinct allocations (a parsed template condition versus a caller
supplied variable), so composite values compare unequal. -/
def jsStrictEq : Value → Value → Bool
  | .vUndef, .vUndef => true
  | .vNull, .vNull => true
  | .vBool a, .vBool b => a == b
  | .vNum a, .vNum b => a == b
  | .vStr a, .vStr b => a == b
  | _, _ => false

/-- Variable mappings (`Record<string, unknown>`), as insertion-ordered
association lists; lookup takes the first match, mirroring the unique
keys of a JavaScript object. -/
abbrev VarMap := List (String × Value)

/-- Read `map[name]` and compare against `undefined`: an absent key and a
key stored as `undefined` are indistinguishable to the engine, so both
yield `none`. -/
def lookupVar : VarMap → String → Option Value
  | [], _ => none
  | (k, v) :: rest, name =>
    if k = name then
      match v with
      | .vUndef => none
      | w => some w
    else lookupVar rest name

/-- `map[name] = value`: overwrite in place when the key exists (keeping
its position, as JavaScript object assignment does), else append. -/
def setVar : VarMap → String → Value → VarMap
  | [], name, v => [(name, v)]
  | (k, w) :: rest, name, v =>
    if k = name then (name, v) :: rest else (k, w) :: setVar rest name v

/-- A generic left-to-right replacement scanner, the shape shared by the
global-regex `replace` calls of the engine. `f` attempts a match at the
current position: `some (rep, k)` means the match consumed `k + 1`
characters and is replaced by `rep` (which is not rescanned); `none`
emits one character and retries at the next position. The second
argument counts characters of an accepted match still to be skipped. -/
def scanAux (f : List Char → Option (List Char × Nat)) : List Char → Nat → List Char
  | [], _ => []
  | _ :: rest, k + 1 => scanAux f rest k
  | c :: rest, 0 =>
    match f (c :: rest) with
    | some (rep, k) => rep ++ scanAux f rest k
    | none => c :: scanAux f rest 0

/-- Run a replacement scanner over a whole character list. -/
def scanRep (f : List Char → Option (List Char × Nat)) (l : List Char) : List Char :=
  scanAux f l 0

/-- Boolean prefix test. -/
def isPre (pat l : List Char) : Bool := pat.isPrefixOf l

/-- Split at the first occurrence of `pat` (assumed non-empty):
`some (pre, post)` with the occurrence removed, or `none`. This is the
leftmost-match search a lazy `[\s\S]*?` regex group performs. -/
def splitSub (pat : List Char) : List Char → Option (List Char × List Char)
  | [] => none
  | c :: rest =>
    if isPre pat (c :: rest) then some ([], (c :: rest).drop pat.length)
    else
      match splitSub pat rest with
      | some (pre, post) => some (c :: pre, post)
      | none => none

/-- Replace every (non-overlapping, leftmost-first) occurrence of the
non-empty literal `pat` by `rep`, as a global literal-regex `replace`. -/
def replaceAllL (pat rep l : List Char) : List Char :=
  scanRep (fun cs => if isPre pat cs then some (rep, pat.length - 1) else none) l

/-- Replace the first occurrence of `pat` by `rep` (non-global
`String.prototype.replace` with a string pattern). -/
def replaceFirstL (pat rep l : List Char) : List Char :=
  match splitSub pat l with
  | some (pre, post) => pre ++ rep ++ post
  | none => l

/-- `haystack.includes(needle)` on strings. -/
def strIncludes (s sub : String) : Bool :=
  if sub.data.isEmpty then true else (splitSub sub.data s.data).isSome

/-- JavaScript `string.trim()` (ASCII whitespace fragment). -/
def trimL (l : List Char) : List Char :=
  ((l.dropWhile isJsSpace).reverse.dropWhile isJsSpace).reverse

/-- String version of `trimL`. -/
def trimStr (s : String) : String := String.mk (trimL s.data)

/-- The instant read by `new Date()` in the built-in `date` helper;
fields mirror the accessors the code calls (`getMonth` is 0-based). -/
structure JsDate where
  fullYear : Nat
  month : Nat
  day : Nat
  hour : Nat
  minute : Nat
  second : Nat

/-- `String(n).padStart(2, '0')` for the date components. -/
def pad2 (n : Nat) : String := if n < 10 then "0" ++ toString n else toString n

/-- `TemplateEngine.formatDate` (engine.ts 492-502): sequentially replace
the first occurrence of each placeholder, in source order
`YYYY, MM, DD, HH, mm, ss` (month is reported 1-based). -/
def formatDate (d : JsDate) (format : String) : String :=
  String.mk
    (replaceFirstL "ss".data (pad2 d.second).data
      (replaceFirstL "mm".data (pad2 d.minute).data
        (replaceFirstL "HH".data (pad2 d.hour).data
          (replaceFirstL "DD".data (pad2 d.day).data
            (replaceFirstL "MM".data (pad2 (d.month + 1)).data
              (replaceFirstL "YYYY".data (toString d.fullYear).data format.data))))))

/-- `args[i]`, which is `undefined` past the end of the array. -/
def getArg (args : List Value) (i : Nat) : Value := args.getD i Value.vUndef -- absent slot

/-- `String(args[0] || '')`: the stringified first argument when truthy,
else the empty string. -/
def argOrEmpty (args : List Value) : String :=
  let a := getArg args 0
  if jsTruthy a then jsToString a else ""

/-- The `date` helper (engine.ts 427-431): format defaults to
`YYYY-MM-DD` when `args[0]` is falsy, and the current clock instant is
formatted. (A truthy non-string format would throw a TypeError at the
untyped `as string` cast in the source; it is modelled through
`jsToString`, and no claim exercises it.) -/
def helperDate (now : JsDate) (args : List Value) : Value :=
  let format := let a := getArg args 0
    if jsTruthy a then jsToString a else "YYYY-MM-DD"
  .vStr (formatDate now format)

/-- The `uppercase` helper (engine.ts 434-436). Case mapping is applied
per character (ASCII, which is all the engine's own data uses). -/
def helperUppercase (args : List Value) : Value :=
  .vStr (String.mk ((argOrEmpty args).data.map Char.toUpper))

/-- The `lowercase` helper (engine.ts 439-441). -/
def helperLowercase (args : List Value) : Value :=
  .vStr (String.mk ((argOrEmpty args).data.map Char.toLower))

/-- The `capitalize` helper (engine.ts 444-447):
`str.charAt(0).toUpperCase() + str.slice(1)`. -/
def helperCapitalize (args : List Value) : Value :=
  match (argOrEmpty args).data with
  | [] => .vStr ""
  | c :: r => .vStr (String.mk (c.toUpper :: r))

/-- The `join` helper (engine.ts 450-457): joins an array argument with
the separator `String(args[1] || ', ')`; a non-array first argument is
stringified. -/
def helperJoin (args : List Value) : Value :=
  let sep := let a := getArg args 1
    if jsTruthy a then jsToString a else ", "
  match getArg args 0 with
  | .vArr xs => .vStr (String.intercalate sep (arrElems xs))
  | v => .vStr (jsToString v)

/-- The `default` helper (engine.ts 460-462): first argument unless it is
`undefined`, `null` or the empty string, else the second argument. -/
def helperDefault (args : List Value) : Value :=
  match getArg args 0 with
  | .vUndef => getArg args 1
  | .vNull => getArg args 1
  | .vStr s => if s.isEmpty then getArg args 1 else .vStr s
  | v => v

/-- The `length` helper (engine.ts 465-470): array length, string length
(code-unit length in JavaScript; code points here — they agree on the
ASCII data any claim uses), else 0. -/
def helperLength (args : List Value) : Value :=
  match getArg args 0 with
  | .vArr xs => .vNum xs.length
  | .vStr s => .vNum s.length
  | _ => .vNum 0

/-- The `truncate` helper (engine.ts 473-478): keep at most
`Number(args[1]) || 100` characters, appending `...` when cut
(`slice(0, len)` clamps a negative length from the end). -/
def helperTruncate (args : List Value) : Value :=
  let str := argOrEmpty args
  let len : Int :=
    match jsToNumber (getArg args 1) with
    | some n => if n = 0 then 100 else n
    | none => 100
  if (str.length : Int) ≤ len then .vStr str
  else
    let cut : Nat := if len < 0 then str.length - len.natAbs else len.toNat
    .vStr (String.mk (str.data.take cut) ++ "...")

/-- Characters kept by the `slug` helper after lowercasing. -/
def isSlugChar (c : Char) : Bool := ('a' ≤ c && c ≤ 'z') || ('0' ≤ c && c ≤ '9')

/-- Collapse each run of non-slug characters to a single hyphen
(`.replace(/[^a-z0-9]+/g, '-')`); the flag records being inside a run. -/
def slugGo : Bool → List Char → List Char
  | _, [] => []
  | inRun, c :: rest =>
    if isSlugChar c then c :: slugGo false rest
    else if inRun then slugGo true rest
    else '-' :: slugGo true rest

/-- `.replace(/^-|-$/g, '')` on a collapsed string: runs are single
hyphens, so it removes one leading and one trailing hyphen. -/
def dropLeadHyphen : List Char → List Char
  | '-' :: r => r
  | l => l

/-- The `slug` helper (engine.ts 481-486). -/
def helperSlug (args : List Value) : Value :=
  let low := (argOrEmpty args).data.map Char.toLower
  .vStr (String.mk ((dropLeadHyphen (slugGo false low).reverse).reverse |> dropLeadHyphen))

/-- The default helper registry in constructor registration order
(engine.ts 425-487). Only the `date` helper observes the clock. The
helpers' unused `variables` parameter is dropped: no default helper
reads it. Custom `registerHelper` entries are outside the claims, which
all concern an engine with the default registry. -/
def defaultHelpers (now : JsDate) : List (String × (List Value → Value)) :=
  [("date", helperDate now),
   ("uppercase", helperUppercase),
   ("lowercase", helperLowercase),
   ("capitalize", helperCapitalize),
   ("join", helperJoin),
   ("default", helperDefault),
   ("length", helperLength),
   ("truncate", helperTruncate),
   ("slug", helperSlug)]

/-- `this.helpers.get(name)` for the default registry. -/
def findHelper (now : JsDate) : List (String × (List Value → Value)) → String → Option (List Value → Value)
  | [], _ => none
  | (k, h) :: rest, name => if k = name then some h else findHelper now rest name

/-- Helper lookup on the default registry. -/
def lookupHelper (now : JsDate) (name : String) : Option (List Value → Value) :=
  findHelper now (defaultHelpers now) name

/-- Opening delimiter as characters. -/
abbrev obrace : List Char := [lbrace, lbrace]

/-- Closing delimiter as characters. -/
abbrev cbrace : List Char := [rbrace, rbrace]

/-- Match attempt for pass one, `/\{\{(\w+)\}\}/g` (engine.ts 280-284):
two braces, a maximal non-empty word run, two braces. A name present in
the resolved mapping is replaced by its `String(...)` form; an absent
name reconstructs the matched text unchanged. -/
def tryPlain (vars : VarMap) : List Char → Option (List Char × Nat)
  | '\x7b' :: '\x7b' :: rest =>
    let w := rest.takeWhile isWordChar
    if w.isEmpty then none
    else
      match rest.drop w.length with
      | '\x7d' :: '\x7d' :: _ =>
        let rep :=
          match lookupVar vars (String.mk w) with
          | some v => (jsToString v).data
          | none => obrace ++ w ++ cbrace
        some (rep, w.length + 3)
      | _ => none
  | _ => none

/-- Truthiness test used by the block passes (engine.ts 308, 315, 323):
defined, non-null, not `false`, not the empty string. Note a numeric `0`
counts as truthy here, unlike `Boolean(0)`. -/
def blockTruthy : Option Value → Bool
  | none => false
  | some .vUndef => false
  | some .vNull => false
  | some (.vBool b) => b
  | some (.vStr s) => !s.isEmpty
  | some _ => true

/-- The literal `{{else}}`. -/
abbrev elseTag : List Char := obrace ++ "else".data ++ cbrace

/-- The literal `{{/if}}`. -/
abbrev endIfTag : List Char := obrace ++ "/if".data ++ cbrace

/-- The literal `{{/unless}}`. -/
abbrev endUnlessTag : List Char := obrace ++ "/unless".data ++ cbrace

/-- The literal `{{/each}}`. -/
abbrev endEachTag : List Char := obrace ++ "/each".data ++ cbrace

/-- Match attempt for
`/\{\{#if\s+(\w+)\}\}([\s\S]*?)\{\{else\}\}([\s\S]*?)\{\{\/if\}\}/g`
(engine.ts 303, 306-310): after the head, the lazy groups take the text
up to the first `{{else}}` and then up to the first `{{/if}}` after it.
The truthy branch keeps the first body, the falsy branch the second. -/
def tryIfElse (vars : VarMap) : List Char → Option (List Char × Nat)
  | '\x7b' :: '\x7b' :: '#' :: 'i' :: 'f' :: rest =>
    let ws := rest.takeWhile isJsSpace
    if ws.isEmpty then none
    else
      let r1 := rest.drop ws.length
      let w := r1.takeWhile isWordChar
      if w.isEmpty then none
      else
        match r1.drop w.length with
        | '\x7d' :: '\x7d' :: r2 =>
          match splitSub elseTag r2 with
          | some (c1, r3) =>
            match splitSub endIfTag r3 with
            | some (c2, _) =>
              let rep := if blockTruthy (lookupVar vars (String.mk w)) then c1 else c2
              some (rep,
                (5 + ws.length + w.length + 2 + c1.length + elseTag.length
                  + c2.length + endIfTag.length) - 1)
            | none => none
          | none => none
        | _ => none
  | _ => none

/-- Match attempt for `/\{\{#if\s+(\w+)\}\}([\s\S]*?)\{\{\/if\}\}/g`
(engine.ts 302, 313-317), run on the output of the if/else pass: body up
to the first `{{/if}}`, kept when truthy, dropped when falsy. -/
def tryIf (vars : VarMap) : List Char → Option (List Char × Nat)
  | '\x7b' :: '\x7b' :: '#' :: 'i' :: 'f' :: rest =>
    let ws := rest.takeWhile isJsSpace
    if ws.isEmpty then none
    else
      let r1 := rest.drop ws.length
      let w := r1.takeWhile isWordChar
      if w.isEmpty then none
      else
        match r1.drop w.length with
        | '\x7d' :: '\x7d' :: r2 =>
          match splitSub endIfTag r2 with
          | some (c1, _) =>
            let rep := if blockTruthy (lookupVar vars (String.mk w)) then c1 else []
            some (rep, (5 + ws.length + w.length + 2 + c1.length + endIfTag.length) - 1)
          | none => none
        | _ => none
  | _ => none

/-- Match attempt for `/\{\{#unless\s+(\w+)\}\}([\s\S]*?)\{\{\/unless\}\}/g`
(engine.ts 320-325): body kept when the variable is falsy. -/
def tryUnless (vars : VarMap) : List Char → Option (List Char × Nat)
  | '\x7b' :: '\x7b' :: '#' :: 'u' :: 'n' :: 'l' :: 'e' :: 's' :: 's' :: rest =>
    let ws := rest.takeWhile isJsSpace
    if ws.isEmpty then none
    else
      let r1 := rest.drop ws.length
      let w := r1.takeWhile isWordChar
      if w.isEmpty then none
      else
        match r1.drop w.length with
        | '\x7d' :: '\x7d' :: r2 =>
          match splitSub endUnlessTag r2 with
          | some (c1, _) =>
            let rep := if blockTruthy (lookupVar vars (String.mk w)) then [] else c1
            some (rep, (9 + ws.length + w.length + 2 + c1.length + endUnlessTag.length) - 1)
          | none => none
        | _ => none
  | _ => none

/-- `String(index === 0)` and friends. -/
def boolStr (b : Bool) : String := if b then "true" else "false"

/-- `Object.entries(item)` as observed by the loop pass (engine.ts
350-354): keyed objects list their fields, arrays list their elements
under their decimal index keys (`typeof array === 'object'`), and
primitives (and `null`, excluded by `item !== null`) have no entries. -/
def enumFields (i : Nat) : List Value → List (String × Value)
  | [] => []
  | v :: r => (toString i, v) :: enumFields (i + 1) r

/-- Entry list of a loop element. -/
def entryNames : Value → List (String × Value)
  | .vObj fields => fields
  | .vArr xs => enumFields 0 xs
  | _ => []

/-- The literal `{{this}}`. -/
abbrev thisTag : List Char := obrace ++ "this".data ++ cbrace

/-- The literal `{{@index}}`. -/
abbrev indexTag : List Char := obrace ++ "@index".data ++ cbrace

/-- The literal `{{@first}}`. -/
abbrev firstTag : List Char := obrace ++ "@first".data ++ cbrace

/-- The literal `{{@last}}`. -/
abbrev lastTag : List Char := obrace ++ "@last".data ++ cbrace

/-- Per-field substitution inside one loop iteration (engine.ts 350-354):
`new RegExp('\\{\\{key\\}\\}', 'g')` built from the raw key, applied in
entry order. (A key containing regex metacharacters would change the
pattern's meaning in JavaScript; every claim uses word-character keys,
for which the literal reading below is exact.) -/
def applyFields (fields : List (String × Value)) (body : List Char) : List Char :=
  List.foldl
    (fun acc kv => replaceAllL (obrace ++ kv.1.data ++ cbrace) (jsToString kv.2).data acc)
    body fields

/-- One loop iteration (engine.ts 340-356): global literal replacements
of `{{this}}`, `{{@index}}`, `{{@first}}`, `{{@last}}` in that order,
then the element's entries. -/
def renderItem (body : List Char) (i n : Nat) (item : Value) : List Char :=
  let s1 := replaceAllL thisTag (jsToString item).data body
  let s2 := replaceAllL indexTag (toString i).data s1
  let s3 := replaceAllL firstTag (boolStr (i == 0)).data s2
  let s4 := replaceAllL lastTag (boolStr (i == n - 1)).data s3
  applyFields (entryNames item) s4

/-- `value.map((item, index) => ...).join('')`. -/
def renderEachGo (body : List Char) (n : Nat) : Nat → List Value → List Char
  | _, [] => []
  | i, v :: rest => renderItem body i n v ++ renderEachGo body n (i + 1) rest

/-- Render a loop body over all elements. -/
def renderEach (body : List Char) (items : List Value) : List Char :=
  renderEachGo body items.length 0 items

/-- Match attempt for `/\{\{#each\s+(\w+)\}\}([\s\S]*?)\{\{\/each\}\}/g`
(engine.ts 334-358): body up to the first `{{/each}}`; a non-array
variable (including an absent one) replaces the block by nothing. -/
def tryEach (vars : VarMap) : List Char → Option (List Char × Nat)
  | '\x7b' :: '\x7b' :: '#' :: 'e' :: 'a' :: 'c' :: 'h' :: rest =>
    let ws := rest.takeWhile isJsSpace
    if ws.isEmpty then none
    else
      let r1 := rest.drop ws.length
      let w := r1.takeWhile isWordChar
      if w.isEmpty then none
      else
        match r1.drop w.length with
        | '\x7d' :: '\x7d' :: r2 =>
          match splitSub endEachTag r2 with
          | some (body, _) =>
            let rep :=
              match lookupVar vars (String.mk w) with
              | some (.vArr items) => renderEach body items
              | _ => []
            some (rep, (7 + ws.length + w.length + 2 + body.length + endEachTag.length) - 1)
          | none => none
        | _ => none
  | _ => none

mutual

/-- `argsString.split(/\s+/)`, accumulating the current token (reversed):
a whitespace character ends the current token (possibly empty, e.g. for
leading whitespace) and the rest of the run is skipped. -/
def splitWsGo (cur : List Char) : List Char → List (List Char)
  | [] => [cur.reverse]
  | c :: rest =>
    if isJsSpace c then cur.reverse :: splitWsRun rest
    else splitWsGo (c :: cur) rest

/-- Skip the remainder of a whitespace run; at the end of the string the
split produces a trailing empty token, as `split(/\s+/)` does. -/
def splitWsRun : List Char → List (List Char)
  | [] => [[]]
  | c :: rest =>
    if isJsSpace c then splitWsRun rest
    else splitWsGo [c] rest

end

/-- Is the token wrapped in the quote character `q` (JavaScript
`startsWith(q) && endsWith(q)`, which a single quote character itself
satisfies)? -/
def isQuoted (q : Char) : List Char → Bool
  | [] => false
  | c :: rest => c = q && (c :: rest).getLast? = some q

/-- `arg.slice(1, -1)`. -/
def unquote (t : List Char) : List Char := (t.drop 1).dropLast

/-- Resolve one helper argument token (engine.ts 374-391), in priority
order: resolved variable value, double- or single-quoted literal,
number, raw string. -/
def resolveToken (vars : VarMap) (t : List Char) : Value :=
  match lookupVar vars (String.mk t) with
  | some v => v
  | none =>
    if isQuoted '"' t then .vStr (String.mk (unquote t))
    else if isQuoted '\'' t then .vStr (String.mk (unquote t))
    else
      match jsStrToNumber (String.mk t) with
      | some n => .vNum n
      | none => .vStr (String.mk t)

/-- Replacement text for an accepted helper-pattern match (engine.ts
368-394): an unregistered name reproduces the matched span unchanged;
a registered helper receives the split-and-resolved arguments and its
result is stringified. -/
def helperRep (now : JsDate) (vars : VarMap) (w : List Char) (argsPart : List Char)
    (argsString : Option (List Char)) : List Char :=
  match lookupHelper now (String.mk w) with
  | none => obrace ++ w ++ argsPart ++ cbrace
  | some h =>
    let args :=
      match argsString with
      | none => []
      | some astr => (splitWsGo [] astr).map (resolveToken vars)
    (jsToString (h args)).data

/-- Match attempt for `/\{\{(\w+)(?:\s+([^}]+))?\}\}/g` (engine.ts 366):
two braces, a non-empty word run `w`, then either an immediate `}}` (no
argument string) or a maximal non-brace run `R` that must start with
whitespace, be followed by `}}`, and decompose as `\s+` then a non-empty
`[^}]+` — greedy `\s+` with backtracking, so the captured argument
string starts at the first non-whitespace character of `R`, except that
an all-whitespace `R` needs length at least two and captures exactly its
final character. -/
def tryHelper (now : JsDate) (vars : VarMap) : List Char → Option (List Char × Nat)
  | '\x7b' :: '\x7b' :: rest =>
    let w := rest.takeWhile isWordChar
    if w.isEmpty then none
    else
      match rest.drop w.length with
      | '\x7d' :: '\x7d' :: _ => some (helperRep now vars w [] none, w.length + 3)
      | r1 =>
        let R := r1.takeWhile (fun c => c ≠ rbrace)
        match R with
        | [] => none
        | rc :: _ =>
          if isJsSpace rc then
            match r1.drop R.length with
            | '\x7d' :: '\x7d' :: _ =>
              let S := R.takeWhile isJsSpace
              if S.length = R.length then
                if 2 ≤ R.length then
                  some (helperRep now vars w R (some (R.drop (R.length - 1))),
                    w.length + R.length + 3)
                else none
              else
                some (helperRep now vars w R (some (R.drop S.length)),
                  w.length + R.length + 3)
            | _ => none
          else none
  | _ => none

/-- Pass one of `interpolate` (engine.ts 280-284). -/
def plainPass (vars : VarMap) (l : List Char) : List Char := scanRep (tryPlain vars) l

/-- Pass two, `processConditionalBlocks` (engine.ts 301-328): the
if/else pattern is replaced first, then the simple if pattern on its
output, then the unless pattern. -/
def condPass (vars : VarMap) (l : List Char) : List Char :=
  scanRep (tryUnless vars) (scanRep (tryIf vars) (scanRep (tryIfElse vars) l))

/-- Pass three, `processLoopBlocks` (engine.ts 333-359). -/
def loopPass (vars : VarMap) (l : List Char) : List Char := scanRep (tryEach vars) l

/-- Pass four, `processHelperCalls` (engine.ts 364-396). -/
def helperPass (now : JsDate) (vars : VarMap) (l : List Char) : List Char :=
  scanRep (tryHelper now vars) l

/-- `TemplateEngine.interpolate` (engine.ts 278-296) on character lists:
plain substitution, then conditional blocks, then loop blocks, then
helper calls, each pass consuming the previous pass's output. -/
def interpolateL (now : JsDate) (vars : VarMap) (l : List Char) : List Char :=
  helperPass now vars (loopPass vars (condPass vars (plainPass vars l)))

/-- `TemplateEngine.interpolate` on strings. -/
def interpolate (now : JsDate) (vars : VarMap) (text : String) : String :=
  String.mk (interpolateL now vars text.data)

/-- Condition operators (`SectionCondition['operator']`); `opOther`
models any unrecognized operator string, which the evaluator's `default`
branch accepts as visible. -/
inductive CondOp where
  | opEquals
  | opNotEquals
  | opContains
  | opNotContains
  | opGreaterThan
  | opLessThan
  | opExists
  | opNotExists
  | opOther

/-- A section visibility condition (`types.ts`): the variable name, the
operator, and the comparand (meaningful only for the value-comparing
operators; `vUndef` when absent). -/
structure SectionCondition where
  varName : String
  op : CondOp
  value : Value

/-- A template section (`types.ts`). `none` models an absent optional
property. (An object carrying a property explicitly set to `undefined`
— as the YAML loader produces for a missing `order` — behaves under
`{...existing, ...child}` spread like a present property; the claims and
this model use properties that are genuinely absent.) The presentational
field `collapsible` is omitted: the engine never reads it. Sections nest,
so this is an inductive type with explicit projections. -/
inductive TemplateSection where
  | mk (id : String) (title : String) (content : String) (order : Option Int)
    (condition : Option SectionCondition) (sections : Option (List TemplateSection))
    (prompt : Option String)

/-- Section id. -/
def TemplateSection.id : TemplateSection → String
  | .mk i _ _ _ _ _ _ => i

/-- Section title. -/
def TemplateSection.title : TemplateSection → String
  | .mk _ t _ _ _ _ _ => t

/-- Section content. -/
def TemplateSection.content : TemplateSection → String
  | .mk _ _ c _ _ _ _ => c

/-- Section sort weight. -/
def TemplateSection.order : TemplateSection → Option Int
  | .mk _ _ _ o _ _ _ => o

/-- Section condition. -/
def TemplateSection.condition : TemplateSection → Option SectionCondition
  | .mk _ _ _ _ c _ _ => c

/-- Nested sections. -/
def TemplateSection.sections : TemplateSection → Option (List TemplateSection)
  | .mk _ _ _ _ _ s _ => s

/-- Section prompt reference. -/
def TemplateSection.prompt : TemplateSection → Option String
  | .mk _ _ _ _ _ _ p => p

/-- Template metadata (`types.ts`). The engine reads `id` (registry key)
and `name` (rendered heading) and merges the rest shallowly; the
presentational fields `audience`, `tags`, `license` are omitted, and
`author` is kept as a representative optional field so the shallow merge
is observable. -/
structure TemplateMeta where
  id : String
  name : String
  description : String
  version : String
  category : String
  scope : String
  author : Option String

/-- A variable declaration (`types.ts`). The engine reads `name`,
`default` (`none` models an absent property, i.e. `undefined`) and
`required`; the presentational fields (`label`, `type`, `description`,
`options`, `pattern`, `min`, `max`) are omitted as the engine never
reads them. `required` stays optional so the shallow inheritance merge
can distinguish an absent property. -/
structure TemplateVariable where
  name : String
  default : Option Value
  required : Option Bool

/-- An AI-generation prompt declaration (`sectionId` is the source's
`section` field, a word Lean reserves); opaque to the engine, which only
concatenates prompt lists during inheritance resolution. -/
structure TemplatePrompt where
  id : String
  sectionId : String
  system : Option String
  user : String

/-- A custom template (`types.ts`). `varDecls` is the source's
`variables` field and `extendsId` its `extends` field (both words are
reserved in Lean); `prompts` models the optional `prompts` array with
`[]` for absent, which the engine's `(x.prompts || [])` reads make
indistinguishable from an empty one. -/
structure CustomTemplate where
  meta : TemplateMeta
  varDecls : List TemplateVariable
  sections : List TemplateSection
  extendsId : Option String
  prompts : List TemplatePrompt

/-- A compiled section (`types.ts`): fully interpolated title and
content, with `sections` present exactly when the source section had a
`sections` array (even an empty one). -/
inductive CompiledSection where
  | mk (id : String) (title : String) (content : String)
    (sections : Option (List CompiledSection))

/-- Compiled section id. -/
def CompiledSection.id : CompiledSection → String
  | .mk i _ _ _ => i

/-- Compiled section title. -/
def CompiledSection.title : CompiledSection → String
  | .mk _ t _ _ => t

/-- Compiled section content. -/
def CompiledSection.content : CompiledSection → String
  | .mk _ _ c _ => c

/-- Compiled nested sections. -/
def CompiledSection.sections : CompiledSection → Option (List CompiledSection)
  | .mk _ _ _ s => s

/-- The output of `compile` (`types.ts`): the resolved template, the
compiled section list and the resolved variable mapping (the source's
`variables` field, a word Lean reserves). -/
structure CompiledTemplate where
  template : CustomTemplate
  sections : List CompiledSection
  resolvedVars : VarMap

/-- The engine's template registry `Map<string, CustomTemplate>`. -/
abbrev Registry := List (String × CustomTemplate)

/-- `this.templates.get(id)`. -/
def lookupTemplate : Registry → String → Option CustomTemplate
  | [], _ => none
  | (k, t) :: rest, i => if k = i then some t else lookupTemplate rest i

/-- `TemplateEngine.resolveVariables`, declaration loop (engine.ts
182-190): provided value if defined, else declared default if defined,
else an error naming the variable when it is required, else no entry. -/
def resolveDefs (provided : VarMap) : List TemplateVariable → VarMap → Except String VarMap
  | [], acc => .ok acc
  | d :: rest, acc =>
    match lookupVar provided d.name with
    | some v => resolveDefs provided rest (setVar acc d.name v)
    | none =>
      match d.default with
      | some dv => resolveDefs provided rest (setVar acc d.name dv)
      | none =>
        if d.required.getD false then .error ("Required variable missing: " ++ d.name)
        else resolveDefs provided rest acc

/-- `TemplateEngine.resolveVariables`, pass-through loop (engine.ts
193-197): each provided entry not yet resolved is added. -/
def addExtras : VarMap → VarMap → VarMap
  | acc, [] => acc
  | acc, (k, v) :: rest =>
    addExtras (match lookupVar acc k with | none => setVar acc k v | some _ => acc) rest

/-- `TemplateEngine.resolveVariables` (engine.ts 176-200). -/
def resolveVariables (defs : List TemplateVariable) (provided : VarMap) :
    Except String VarMap :=
  match resolveDefs provided defs [] with
  | .error e => .error e
  | .ok acc => .ok (addExtras acc provided)

/-- `value.includes(x)` membership for the `contains` operators
(SameValueZero, which coincides with `jsStrictEq` on this model). -/
def listIncludes (xs : List Value) (v : Value) : Bool := xs.any (fun x => jsStrictEq x v)

/-- `TemplateEngine.evaluateCondition` (engine.ts 238-273). The variable
read is re-inflated to `vUndef` when absent so the strict comparisons
mirror the code's `value === undefined` checks. -/
def evaluateCondition (cond : SectionCondition) (vars : VarMap) : Bool :=
  let v := (lookupVar vars cond.varName).getD .vUndef
  match cond.op with
  | .opEquals => jsStrictEq v cond.value
  | .opNotEquals => !jsStrictEq v cond.value
  | .opContains =>
    match v with
    | .vArr xs => listIncludes xs cond.value
    | .vStr s => strIncludes s (jsToString cond.value)
    | _ => false
  | .opNotContains =>
    match v with
    | .vArr xs => !listIncludes xs cond.value
    | .vStr s => !strIncludes s (jsToString cond.value)
    | _ => true
  | .opGreaterThan =>
    match v with
    | .vNum n =>
      match jsToNumber cond.value with
      | some m => decide (m < n)
      | none => false
    | _ => false
  | .opLessThan =>
    match v with
    | .vNum n =>
      match jsToNumber cond.value with
      | some m => decide (n < m)
      | none => false
    | _ => false
  | .opExists =>
    match v with
    | .vUndef => false
    | .vNull => false
    | .vStr s => !s.isEmpty
    | _ => true
  | .opNotExists =>
    match v with
    | .vUndef => true
    | .vNull => true
    | .vStr s => s.isEmpty
    | _ => false
  | .opOther => true

mutual

/-- `TemplateEngine.compileSections` (engine.ts 205-233): skip a section
whose condition evaluates false (with its whole subtree), otherwise
compile it in order. -/
def compileSections (now : JsDate) (vars : VarMap) : List TemplateSection → List CompiledSection
  | [] => []
  | s :: rest =>
    match TemplateSection.condition s with
    | some c =>
      if evaluateCondition c vars then
        compileSection now vars s :: compileSections now vars rest
      else compileSections now vars rest
    | none => compileSection now vars s :: compileSections now vars rest

/-- Compile one (condition-passing) section: interpolate title and
content, recurse into a present `sections` array. -/
def compileSection (now : JsDate) (vars : VarMap) : TemplateSection → CompiledSection
  | .mk i t c _ _ subs _ =>
    .mk i (interpolate now vars t) (interpolate now vars c) (compileSubs now vars subs)

/-- Nested-section compilation (`if (section.sections)`: present arrays,
even empty ones, stay present). -/
def compileSubs (now : JsDate) (vars : VarMap) : Option (List TemplateSection) → Option (List CompiledSection)
  | none => none
  | some l => some (compileSections now vars l)

end

/-- Shallow meta merge `{...parent, ...child}` (engine.ts 116): every
mandatory field comes from the child; the optional `author` falls back
to the parent when the child lacks it. -/
def mergeMeta (p c : TemplateMeta) : TemplateMeta :=
  ⟨c.id, c.name, c.description, c.version, c.category, c.scope,
    match c.author with | some a => some a | none => p.author⟩

/-- Field-by-field variable merge `{...merged.get(v.name), ...v}`
(engine.ts 136). -/
def mergeVarOne (existing v : TemplateVariable) : TemplateVariable :=
  ⟨v.name,
   (match v.default with | some d => some d | none => existing.default),
   (match v.required with | some r => some r | none => existing.required)⟩

/-- `merged.set(name, value)` on an insertion-ordered variable list:
replace in place or append. -/
def updateVarByName : List TemplateVariable → TemplateVariable → List TemplateVariable
  | [], v => [v]
  | w :: rest, v => if w.name = v.name then v :: rest else w :: updateVarByName rest v

/-- `merged.get(name)` on the variable list. -/
def findVarByName (l : List TemplateVariable) (n : String) : Option TemplateVariable :=
  l.find? (fun v => v.name == n)

/-- `TemplateEngine.mergeVariables` (engine.ts 126-140): seed the parent
declarations, then overlay each child declaration field-by-field onto a
same-named one or append it; insertion order is parent-first. -/
def mergeVariables (parent child : List TemplateVariable) : List TemplateVariable :=
  List.foldl
    (fun acc v =>
      match findVarByName acc v.name with
      | some existing => updateVarByName acc (mergeVarOne existing v)
      | none => acc ++ [v])
    (List.foldl updateVarByName [] parent) child

/-- `a.order || 0`: the sort key with a missing (or zero) order read as
zero. -/
def sectionOrderVal (s : TemplateSection) : Int := (TemplateSection.order s).getD 0

/-- Stable insertion of a section into an order-sorted list: an incoming
element settles in front of the first element of equal or larger key, so
earlier list elements of equal key stay in front of it. -/
def insertByOrder (s : TemplateSection) : List TemplateSection → List TemplateSection
  | [] => [s]
  | t :: rest =>
    if sectionOrderVal s ≤ sectionOrderVal t then s :: t :: rest
    else t :: insertByOrder s rest

/-- `Array.prototype.sort((a, b) => (a.order || 0) - (b.order || 0))`,
which is a stable sort under a consistent comparator; any stable sorting
algorithm (insertion sort here) computes the same list. -/
def sortByOrder : List TemplateSection → List TemplateSection
  | [] => []
  | s :: rest => insertByOrder s (sortByOrder rest)

/-- `merged.get(id)` on the insertion-ordered section list. -/
def findSec (l : List TemplateSection) (i : String) : Option TemplateSection :=
  l.find? (fun s => TemplateSection.id s == i)

/-- `merged.set(id, value)` on the section list: replace in place
(keeping the key's position, as a JavaScript `Map` does) or append. -/
def updateSec : List TemplateSection → TemplateSection → List TemplateSection
  | [], s => [s]
  | t :: rest, s =>
    if TemplateSection.id t = TemplateSection.id s then s :: rest
    else t :: updateSec rest s

/-- The field-by-field section merge `{...existing, ...s, sections: ...}`
(engine.ts 157-163), parameterized by the merger used for a `sections`
array present on both sides: mandatory fields come from the child,
optional fields fall back to the parent, and a child `sections` array is
merged recursively against the parent's (or `[]`). -/
def mergeOneSection (mergeRec : List TemplateSection → List TemplateSection → List TemplateSection)
    (existing s : TemplateSection) : TemplateSection :=
  .mk (TemplateSection.id s) (TemplateSection.title s) (TemplateSection.content s)
    (match TemplateSection.order s with
     | some o => some o
     | none => TemplateSection.order existing)
    (match TemplateSection.condition s with
     | some c => some c
     | none => TemplateSection.condition existing)
    (match TemplateSection.sections s with
     | some cs => some (mergeRec ((TemplateSection.sections existing).getD []) cs)
     | none => TemplateSection.sections existing)
    (match TemplateSection.prompt s with
     | some p => some p
     | none => TemplateSection.prompt existing)

/-- `TemplateEngine.mergeSections` (engine.ts 145-171): seed the parent
sections into an insertion-ordered map, overlay each child section onto
a same-id entry (or append it), then sort ascending by `order || 0` with
a stable sort. The fuel bounds the nesting depth of recursive merges of
`sections` arrays, modelling the source's unbounded recursion; it is
never exhausted on trees shallower than the supplied fuel. -/
def mergeSections : Nat → List TemplateSection → List TemplateSection → List TemplateSection
  | 0, _, child => sortByOrder child
  | fuel + 1, parent, child =>
    sortByOrder
      (List.foldl
        (fun acc s =>
          match findSec acc (TemplateSection.id s) with
          | some existing => updateSec acc (mergeOneSection (mergeSections fuel) existing s)
          | none => acc ++ [s])
        (List.foldl updateSec [] parent) child)

/-- `TemplateEngine.resolveInheritance` (engine.ts 101-121): a template
without `extends` is returned unchanged; otherwise the parent is looked
up (failing when unregistered), recursively resolved, and the child is
merged over it. The source recurses unboundedly (a cyclic `extends`
chain diverges); the fuel models that by failing when exhausted, which
cannot happen for chains shorter than the supplied fuel. The merged
result carries no `extends`, exactly as the object literal built at
engine.ts 115-120. -/
def resolveInheritance (reg : Registry) (fuel : Nat) (t : CustomTemplate) :
    Except String CustomTemplate :=
  match t.extendsId with
  | none => .ok t
  | some pid =>
    match fuel with
    | 0 => .error "Inheritance recursion limit exceeded"
    | f + 1 =>
      match lookupTemplate reg pid with
      | none => .error ("Parent template not found: " ++ pid)
      | some parent =>
        match resolveInheritance reg f parent with
        | .error e => .error e
        | .ok rp =>
          .ok ⟨mergeMeta rp.meta t.meta,
               mergeVariables rp.varDecls t.varDecls,
               mergeSections (f + 1) rp.sections t.sections,
               none,
               rp.prompts ++ t.prompts⟩

/-- `TemplateEngine.compile` (engine.ts 55-70): resolve inheritance,
resolve variables against the caller context, compile the sections, and
package the three results. The clock parameter reaches interpolation's
`date` helper. -/
def compile (reg : Registry) (fuel : Nat) (now : JsDate) (t : CustomTemplate)
    (ctx : VarMap) : Except String CompiledTemplate :=
  match resolveInheritance reg fuel t with
  | .error e => .error e
  | .ok rt =>
    match resolveVariables rt.varDecls ctx with
    | .error e => .error e
    | .ok vars => .ok ⟨rt, compileSections now vars rt.sections, vars⟩

mutual

/-- `TemplateEngine.renderSection` (engine.ts 401-420): a heading of
`min(level, 6)` hashes and the title, a blank line, the trimmed content
and a blank line when the trimmed content is non-empty, then the
children at the next level. -/
def renderSection (level : Nat) : CompiledSection → List String
  | .mk _ t c subs =>
    (String.mk (List.replicate (min level 6) '#') ++ " " ++ t) :: "" ::
      ((if (trimStr c).isEmpty then [] else [trimStr c, ""]) ++ renderSubs (level + 1) subs)

/-- Render a present `sections` array (`if (section.sections)`). -/
def renderSubs (level : Nat) : Option (List CompiledSection) → List String
  | none => []
  | some l => renderList level l

/-- Render a list of sibling sections in order. -/
def renderList (level : Nat) : List CompiledSection → List String
  | [] => []
  | s :: rest => renderSection level s ++ renderList level rest

end

/-- `TemplateEngine.render` (engine.ts 75-88): the interpolated template
name as a `#` heading, a blank line, then every top-level compiled
section rendered at level 2, all joined with newlines. -/
def render (now : JsDate) (c : CompiledTemplate) : String :=
  String.intercalate "\n"
    (("# " ++ interpolate now c.resolvedVars c.template.meta.name) :: "" ::
      renderList 2 c.sections)

/-- A string consisting solely of regex word characters (the shape of
names matched by the interpolation patterns). -/
abbrev wordOnly (s : String) : Prop := ∀ c ∈ s.data, isWordChar c = true

/-- A character list containing no opening brace, hence inert under
every interpolation pass. -/
abbrev lbFree (l : List Char) : Prop := lbrace ∉ l

mutual

/-- All interpolatable strings of a section tree are brace-free. -/
def sectionLbFree : TemplateSection → Bool
  | .mk _ t c _ _ subs _ =>
    !(t.data.contains lbrace) && !(c.data.contains lbrace) && subsLbFree subs

/-- Brace-freedom of an optional nested list. -/
def subsLbFree : Option (List TemplateSection) → Bool
  | none => true
  | some l => listLbFree l

/-- Brace-freedom of a section list. -/
def listLbFree : List TemplateSection → Bool
  | [] => true
  | s :: rest => sectionLbFree s && listLbFree rest

end

/-- The condition under which a `not_exists` section is visible: the
variable is absent from the resolved mapping, or `null`, or the empty
string. -/
def absentNullOrEmpty (vars : VarMap) (name : String) : Bool :=
  match lookupVar vars name with
  | none => true
  | some .vNull => true
  | some (.vStr s) => s.isEmpty
  | some _ => false

/-- First compiled section's content of a compilation result, used to
observe a difference between two compiled templates. -/
def firstSectionContent : Except String CompiledTemplate → Option String
  | .ok ct =>
    match ct.sections with
    | s :: _ => some (CompiledSection.content s)
    | [] => none
  | .error _ => none

/-- A loop body exercising every substitution of an `each` iteration:
the stringified element, the index, the first/last markers, and a field
named `f` of the element. -/
def loopBody (f : String) : List Char :=
  "<".data ++ (thisTag ++ ("|".data ++ (indexTag ++ ("|".data ++ (firstTag ++ ("|".data
    ++ (lastTag ++ ("|".data ++ (obrace ++ (f.data ++ (cbrace ++ ">".data)))))))))))

/-- A complete `each` block over the array variable `aname` with body
`loopBody f`. -/
def eachContent (aname f : String) : List Char :=
  obrace ++ ("#each ".data ++ (aname.data ++ (cbrace ++ (loopBody f ++ endEachTag))))

/-- The loop output the specification predicts for `loopBody f` over
single-field records with values `ss`: per element, the `[object
Object]` stringification, the zero-based index, the boolean first/last
markers, and the field value, in the body's frame. -/
def loopExpected (n : Nat) : Nat → List String → List Char
  | _, [] => []
  | i, s :: rest =>
    ("<[object Object]|" ++ toString i ++ "|" ++ boolStr (i == 0) ++ "|"
      ++ boolStr (i == n - 1) ++ "|" ++ s ++ ">").data ++ loopExpected n (i + 1) rest

/-- Concatenate a list of segments in front of a tail, right-nested;
used to describe interpolation strings as alternating inert segments
and pattern occurrences. -/
def joinSegs : List (List Char) → List Char → List Char
  | [], t => t
  | m :: ms, t => m ++ joinSegs ms t

/-- Scanner view of the trailing field-reference group of `loopBody`. -/
abbrev c6Fld (f : String) : List Char := '\x7b' :: '\x7b' :: (f.data ++ "\x7d\x7d>".data)

/-- Scanner view of `loopBody` from the `@last` marker on. -/
abbrev c6G4 (f : String) : List Char := '\x7b' :: '\x7b' :: ("@last\x7d\x7d|".data ++ c6Fld f)

/-- Scanner view of `loopBody` from the `@first` marker on. -/
abbrev c6G3 (f : String) : List Char := '\x7b' :: '\x7b' :: ("@first\x7d\x7d|".data ++ c6G4 f)

/-- Scanner view of `loopBody` from the `@index` marker on. -/
abbrev c6G2 (f : String) : List Char := '\x7b' :: '\x7b' :: ("@index\x7d\x7d|".data ++ c6G3 f)

/-- Remainder of `loopBody` after the `this` marker. -/
abbrev c6T1 (f : String) : List Char := '|' :: c6G2 f

/-- Remainder of `loopBody` after the `@index` marker. -/
abbrev c6T2 (f : String) : List Char := '|' :: c6G3 f

/-- Remainder of `loopBody` after the `@first` marker. -/
abbrev c6T3 (f : String) : List Char := '|' :: c6G4 f

/-- Remainder of `loopBody` after the `@last` marker. -/
abbrev c6T4 (f : String) : List Char := '|' :: c6Fld f

/-- Scanner view of the field group of `loopBody ++ endEachTag`. -/
abbrev c6E0 (f : String) : List Char :=
  '\x7b' :: '\x7b' :: (f.data ++ ("\x7d\x7d>".data ++ endEachTag))

/-- Scanner view of `loopBody ++ endEachTag` from the `@last` marker. -/
abbrev c6E4 (f : String) : List Char := '\x7b' :: '\x7b' :: ("@last\x7d\x7d|".data ++ c6E0 f)

/-- Scanner view of `loopBody ++ endEachTag` from the `@first` marker. -/
abbrev c6E3 (f : String) : List Char := '\x7b' :: '\x7b' :: ("@first\x7d\x7d|".data ++ c6E4 f)

/-- Scanner view of `loopBody ++ endEachTag` from the `@index` marker. -/
abbrev c6E2 (f : String) : List Char := '\x7b' :: '\x7b' :: ("@index\x7d\x7d|".data ++ c6E3 f)

/-- Scanner view of `loopBody ++ endEachTag` from the `this` marker. -/
abbrev c6E1 (f : String) : List Char := '\x7b' :: '\x7b' :: ("this\x7d\x7d|".data ++ c6E2 f)

mutual

/-- Renderer contract of spec §4.5, written against nesting depth: a
section at depth `d` emits its title as a heading of level `d + 1`
capped at 6, its trimmed content only when non-blank, then its children
at the next depth; a blank-content section still emits its heading.
(Blank-line placement between elements is taken from the reference
output format.) -/
def renderSectionSpec (depth : Nat) : CompiledSection → List String
  | .mk _ t c subs =>
    (String.mk (List.replicate (min (depth + 1) 6) '#') ++ " " ++ t) :: "" ::
      ((if (trimStr c).isEmpty then [] else [trimStr c, ""]) ++ renderSubsSpec (depth + 1) subs)

/-- Children of a spec-rendered section, at the next depth. -/
def renderSubsSpec (depth : Nat) : Option (List CompiledSection) → List String
  | none => []
  | some l => renderListSpec depth l

/-- Sibling sections at one depth, in order. -/
def renderListSpec (depth : Nat) : List CompiledSection → List String
  | [] => []
  | s :: rest => renderSectionSpec depth s ++ renderListSpec depth rest

end

/-- Renderer contract of spec §4.5 at the document level: the
interpolated template name as a top-level heading, then the compiled
section tree walked depth-first with the top-level sections at nesting
depth 1. -/
def renderSpec (now : JsDate) (c : CompiledTemplate) : String :=
  String.intercalate "\n"
    (("# " ++ interpolate now c.resolvedVars c.template.meta.name) :: "" ::
      renderListSpec 1 c.sections)

/-- Match attempts that can only fire on an opening brace — the shape of
every interpolation pattern's matcher. -/
def headLB (f : List Char → Option (List Char × Nat)) : Prop :=
  ∀ c r, c ≠ lbrace → f (c :: r) = none

/-! ## Generic scanner lemmas -/

theorem scanAux_skip (f : List Char → Option (List Char × Nat)) (a : List Char) :
    ∀ b j, scanAux f (a ++ b) (a.length + j) = scanAux f b j := by
  induction a with
  | nil => intro b j; simp
  | cons c rest ih =>
    intro b j
    have h : (c :: rest).length + j = (rest.length + j) + 1 := by simp; omega
    rw [List.cons_append, h]
    show scanAux f (rest ++ b) (rest.length + j) = scanAux f b j
    exact ih b j

theorem scanAux_skip_all (f : List Char → Option (List Char × Nat)) (a b : List Char) :
    scanAux f (a ++ b) a.length = scanAux f b 0 := by
  have h := scanAux_skip f a b 0
  simpa using h

theorem scanRep_cons_none (f : List Char → Option (List Char × Nat)) (c : Char)
    (r : List Char) (h : f (c :: r) = none) : scanRep f (c :: r) = c :: scanRep f r := by
  simp only [scanRep, scanAux, h]

theorem scanRep_cons_some (f : List Char → Option (List Char × Nat)) (c : Char)
    (r rep : List Char) (k : Nat) (h : f (c :: r) = some (rep, k)) :
    scanRep f (c :: r) = rep ++ scanAux f r k := by
  simp only [scanRep, scanAux, h]

theorem scanRep_nil (f : List Char → Option (List Char × Nat)) : scanRep f [] = [] := rfl

theorem scanRep_append_lbFree (f : List Char → Option (List Char × Nat)) (hf : headLB f)
    (m : List Char) (hm : lbFree m) :
    ∀ rest, scanRep f (m ++ rest) = m ++ scanRep f rest := by
  induction m with
  | nil => intro rest; simp
  | cons c cs ih =>
    intro rest
    have hc : c ≠ lbrace := by
      intro hc
      exact hm (by simp [hc])
    have hcs : lbFree cs := by
      intro hmem
      exact hm (by simp [hmem])
    rw [List.cons_append, scanRep_cons_none f c (cs ++ rest) (hf c (cs ++ rest) hc),
      ih hcs rest, List.cons_append]

theorem scanRep_lbFree_id (f : List Char → Option (List Char × Nat)) (hf : headLB f)
    (l : List Char) (hl : lbFree l) : scanRep f l = l := by
  have h := scanRep_append_lbFree f hf l hl []
  simpa [scanRep_nil] using h

/-! ## Matcher head lemmas: every pattern needs an opening brace -/

theorem tryPlain_headLB (vars : VarMap) : headLB (tryPlain vars) := by
  intro c r hc
  unfold tryPlain
  split
  · rename_i rest heq
    exact absurd (List.head_eq_of_cons_eq heq.symm).symm hc
  · rfl

theorem tryIfElse_headLB (vars : VarMap) : headLB (tryIfElse vars) := by
  intro c r hc
  unfold tryIfElse
  split
  · rename_i rest heq
    exact absurd (List.head_eq_of_cons_eq heq.symm).symm hc
  · rfl

theorem tryIf_headLB (vars : VarMap) : headLB (tryIf vars) := by
  intro c r hc
  unfold tryIf
  split
  · rename_i rest heq
    exact absurd (List.head_eq_of_cons_eq heq.symm).symm hc
  · rfl

theorem tryUnless_headLB (vars : VarMap) : headLB (tryUnless vars) := by
  intro c r hc
  unfold tryUnless
  split
  · rename_i rest heq
    exact absurd (List.head_eq_of_cons_eq heq.symm).symm hc
  · rfl

theorem tryEach_headLB (vars : VarMap) : headLB (tryEach vars) := by
  intro c r hc
  unfold tryEach
  split
  · rename_i rest heq
    exact absurd (List.head_eq_of_cons_eq heq.symm).symm hc
  · rfl

theorem tryHelper_headLB (now : JsDate) (vars : VarMap) : headLB (tryHelper now vars) := by
  intro c r hc
  unfold tryHelper
  split
  · rename_i rest heq
    exact absurd (List.head_eq_of_cons_eq heq.symm).symm hc
  · rfl

theorem tryPre_headLB (pat rep : List Char) (hp : pat.head? = some lbrace) :
    headLB (fun cs => if isPre pat cs then some (rep, pat.length - 1) else none) := by
  intro c r hc
  have : isPre pat (c :: r) = false := by
    cases pat with
    | nil => simp at hp
    | cons p ps =>
      have hpl : p = lbrace := by simpa using hp
      simp only [isPre, List.isPrefixOf]
      subst hpl
      simp [beq_iff_eq]
      intro h
      exact absurd h.symm hc
  simp [this]

/-! ## Word runs and prefix boundaries -/

theorem isWordChar_not_lbrace (c : Char) (h : isWordChar c = true) : c ≠ lbrace := by
  intro hc
  subst hc
  simp [isWordChar, lbrace] at h

theorem lbFree_of_word (l : List Char) (h : ∀ c ∈ l, isWordChar c = true) : lbFree l := by
  intro hmem
  exact absurd rfl (isWordChar_not_lbrace lbrace (h lbrace hmem))

theorem takeWhile_word_append (w : List Char) (hw : ∀ c ∈ w, isWordChar c = true)
    (b : Char) (hb : isWordChar b = false) (r : List Char) :
    (w ++ b :: r).takeWhile isWordChar = w := by
  induction w with
  | nil => simp [List.takeWhile_cons, hb]
  | cons a w' ih =>
    have ha : isWordChar a = true := hw a (by simp)
    have hw' : ∀ c ∈ w', isWordChar c = true := fun c hc => hw c (by simp [hc])
    simp [List.takeWhile_cons, ha, ih hw']

theorem word_rbrace_bound (w : List Char) :
    ∀ f r₁ r₂, (∀ c ∈ w, isWordChar c = true) → (∀ c ∈ f, isWordChar c = true) →
      isPre (w ++ rbrace :: r₁) (f ++ rbrace :: r₂) = true → w = f := by
  induction w with
  | nil =>
    intro f r₁ r₂ _ hf hp
    cases f with
    | nil => rfl
    | cons c f' =>
      exfalso
      simp only [List.nil_append, List.cons_append, isPre, List.isPrefixOf,
        Bool.and_eq_true, beq_iff_eq] at hp
      have : isWordChar rbrace = true := hp.1 ▸ hf c (by simp)
      simp [isWordChar, rbrace] at this
  | cons a w' ih =>
    intro f r₁ r₂ hw hf hp
    cases f with
    | nil =>
      exfalso
      simp only [List.nil_append, List.cons_append, isPre, List.isPrefixOf,
        Bool.and_eq_true, beq_iff_eq] at hp
      have : isWordChar rbrace = true := hp.1 ▸ hw a (by simp)
      simp [isWordChar, rbrace] at this
    | cons c f' =>
      simp only [List.cons_append, isPre, List.isPrefixOf, Bool.and_eq_true,
        beq_iff_eq] at hp
      have hac : a = c := hp.1
      have hw' : ∀ x ∈ w', isWordChar x = true := fun x hx => hw x (by simp [hx])
      have hf' : ∀ x ∈ f', isWordChar x = true := fun x hx => hf x (by simp [hx])
      rw [hac, ih f' r₁ r₂ hw' hf' hp.2]

/-! ## First-occurrence search lemmas -/

theorem splitSub_cons_neg (pat : List Char) (c : Char) (rest : List Char)
    (h : isPre pat (c :: rest) = false) :
    splitSub pat (c :: rest) =
      Option.map (fun pr => (c :: pr.1, pr.2)) (splitSub pat rest) := by
  simp only [splitSub, h]
  cases splitSub pat rest with
  | none => simp
  | some pr => cases pr with | mk pre post => simp

theorem splitSub_match (pat y : List Char) (hne : pat ≠ []) :
    splitSub pat (pat ++ y) = some ([], y) := by
  cases pat with
  | nil => exact absurd rfl hne
  | cons p ps =>
    have hp : isPre (p :: ps) ((p :: ps) ++ y) = true :=
      List.isPrefixOf_iff_prefix.mpr (List.prefix_append (p :: ps) y)
    rw [List.cons_append]
    simp only [splitSub, ← List.cons_append, hp, if_true]
    rw [List.drop_left]

theorem splitSub_append_lbFree (pat : List Char) (hp : pat.head? = some lbrace)
    (m : List Char) (hm : lbFree m) :
    ∀ rest, splitSub pat (m ++ rest) =
      Option.map (fun pr => (m ++ pr.1, pr.2)) (splitSub pat rest) := by
  induction m with
  | nil =>
    intro rest
    cases h : splitSub pat rest with
    | none => simp [h]
    | some pr => cases pr with | mk pre post => simp [h]
  | cons c cs ih =>
    intro rest
    have hc : c ≠ lbrace := fun hc => hm (by simp [hc])
    have hcs : lbFree cs := fun hmem => hm (by simp [hmem])
    have hfalse : isPre pat (c :: (cs ++ rest)) = false := by
      cases pat with
      | nil => simp at hp
      | cons p ps =>
        have hpl : p = lbrace := by simpa using hp
        simp only [isPre, List.isPrefixOf, Bool.and_eq_true, beq_iff_eq]
        subst hpl
        simp [beq_iff_eq]
        intro h
        exact absurd h.symm hc
    rw [List.cons_append, splitSub_cons_neg pat c (cs ++ rest) hfalse, ih hcs rest]
    cases splitSub pat rest with
    | none => simp
    | some pr => cases pr with | mk pre post => simp

/-! ## Global literal replacement via first-occurrence splitting -/

theorem replaceAllL_eq (pat rep : List Char) (hne : pat ≠ []) (l : List Char) :
    replaceAllL pat rep l =
      match splitSub pat l with
      | none => l
      | some (pre, post) => pre ++ rep ++ replaceAllL pat rep post := by
  induction l with
  | nil =>
    simp [replaceAllL, scanRep, scanAux, splitSub]
  | cons c rest ih =>
    by_cases hp : isPre pat (c :: rest) = true
    · obtain ⟨y, hy⟩ : ∃ y, pat ++ y = c :: rest := List.isPrefixOf_iff_prefix.mp hp
      cases pat with
      | nil => exact absurd rfl hne
      | cons p ps =>
        have hpc : p = c := List.head_eq_of_cons_eq (by simpa using hy)
        have hrest : rest = ps ++ y := (List.tail_eq_of_cons_eq (by simpa using hy)).symm
        have hsplit : splitSub (p :: ps) (c :: rest) = some ([], y) := by
          rw [← hy]
          exact splitSub_match (p :: ps) y hne
        rw [hsplit]
        have hstep : (fun cs => if isPre (p :: ps) cs then
            some (rep, (p :: ps).length - 1) else none) (c :: rest) =
            some (rep, (p :: ps).length - 1) := by simp [hp]
        unfold replaceAllL
        rw [scanRep_cons_some _ c rest rep ((p :: ps).length - 1) hstep]
        have hlen : (p :: ps).length - 1 = ps.length := by simp
        rw [hrest, hlen, scanAux_skip_all]
        rfl
    · have hp' : isPre pat (c :: rest) = false := by
        cases h : isPre pat (c :: rest) with
        | true => exact absurd h hp
        | false => rfl
      have hstep : (fun cs => if isPre pat cs then
          some (rep, pat.length - 1) else none) (c :: rest) = none := by simp [hp']
      unfold replaceAllL
      rw [scanRep_cons_none _ c rest hstep]
      rw [splitSub_cons_neg pat c rest hp']
      unfold replaceAllL at ih
      rw [ih]
      cases splitSub pat rest with
      | none => rfl
      | some pr => cases pr with | mk pre post => simp

theorem replaceAllL_no_occur (pat rep l : List Char) (hne : pat ≠ [])
    (h : splitSub pat l = none) : replaceAllL pat rep l = l := by
  rw [replaceAllL_eq pat rep hne l, h]

theorem replaceAllL_single (pat rep l pre post : List Char) (hne : pat ≠ [])
    (h : splitSub pat l = some (pre, post)) (h2 : splitSub pat post = none) :
    replaceAllL pat rep l = pre ++ rep ++ post := by
  rw [replaceAllL_eq pat rep hne l, h]
  simp [replaceAllL_no_occur pat rep post hne h2]

/-! ## Decimal representations are brace-free -/

theorem digitChar_isDigit (m : Nat) (h : m < 10) : (Nat.digitChar m).isDigit = true := by
  interval_cases m <;> decide

theorem toDigitsCore_digits (fuel : Nat) :
    ∀ n ds, (∀ c ∈ ds, c.isDigit = true) →
      ∀ c ∈ Nat.toDigitsCore 10 fuel n ds, c.isDigit = true := by
  induction fuel with
  | zero =>
    intro n ds hds c hc
    simp only [Nat.toDigitsCore] at hc
    exact hds c hc
  | succ f ih =>
    intro n ds hds c hc
    simp only [Nat.toDigitsCore] at hc
    have hd : (Nat.digitChar (n % 10)).isDigit = true :=
      digitChar_isDigit (n % 10) (Nat.mod_lt n (by omega))
    by_cases hz : n / 10 = 0
    · rw [if_pos hz] at hc
      rcases List.mem_cons.mp hc with h1 | h2
      · rw [h1]; exact hd
      · exact hds c h2
    · rw [if_neg hz] at hc
      refine ih (n / 10) (Nat.digitChar (n % 10) :: ds) ?_ c hc
      intro x hx
      rcases List.mem_cons.mp hx with h1 | h2
      · rw [h1]; exact hd
      · exact hds x h2

theorem natRepr_digits (n : Nat) : ∀ c ∈ (toString n).data, c.isDigit = true := by
  intro c hc
  have : (toString n).data = Nat.toDigitsCore 10 (n + 1) n [] := by
    simp [toString, Nat.repr, Nat.toDigits, List.asString]
  rw [this] at hc
  exact toDigitsCore_digits (n + 1) n [] (by simp) c hc

theorem isDigit_not_lbrace (c : Char) (h : c.isDigit = true) : c ≠ lbrace := by
  intro hc
  subst hc
  simp [Char.isDigit, lbrace] at h

theorem natRepr_lbFree (n : Nat) : lbFree (toString n).data := by
  intro hmem
  exact absurd rfl (isDigit_not_lbrace lbrace (natRepr_digits n lbrace hmem))

/-! ## Claim C9 -/

/-- Claim C9: for every template whose `extends` field is absent,
inheritance resolution returns the template unchanged — `resolve` is the
identity (modulo the success wrapper) on extends-free templates, for any
registry and any recursion budget. -/
theorem c9_resolve_identity_without_extends (reg : Registry) (fuel : Nat)
    (t : CustomTemplate) (h : t.extendsId = none) :
    resolveInheritance reg fuel t = .ok t := by
  unfold resolveInheritance
  rw [h]

/-- Witness for C9 at a concrete extends-free template. -/
theorem c9_resolve_identity_without_extends_witness :
    resolveInheritance [] 5
      ⟨⟨"t1", "T1", "doc", "1.0.0", "custom", "standard", none⟩, [], [], none, []⟩ =
      .ok ⟨⟨"t1", "T1", "doc", "1.0.0", "custom", "standard", none⟩, [], [], none, []⟩ :=
  c9_resolve_identity_without_extends [] 5 _ rfl

/-! ## Claim C1 -/

theorem resolveDefs_missing (provided : VarMap) (defs : List TemplateVariable) :
    ∀ acc,
      (∃ d ∈ defs, d.required.getD false = true ∧ d.default = none ∧
        lookupVar provided d.name = none) →
      ∃ d ∈ defs, d.required.getD false = true ∧ d.default = none ∧
        lookupVar provided d.name = none ∧
        resolveDefs provided defs acc = .error ("Required variable missing: " ++ d.name) := by
  induction defs with
  | nil =>
    intro acc h
    obtain ⟨d, hd, _⟩ := h
    exact absurd hd (List.not_mem_nil d)
  | cons d rest ih =>
    intro acc h
    cases hlook : lookupVar provided d.name with
    | some v =>
      have hrest : ∃ e ∈ rest, e.required.getD false = true ∧ e.default = none ∧
          lookupVar provided e.name = none := by
        obtain ⟨e, he, h1, h2, h3⟩ := h
        rcases List.mem_cons.mp he with rfl | hmem
        · rw [hlook] at h3; exact absurd h3 (by simp)
        · exact ⟨e, hmem, h1, h2, h3⟩
      obtain ⟨e, he, h1, h2, h3, heq⟩ := ih (setVar acc d.name v) hrest
      refine ⟨e, List.mem_cons_of_mem d he, h1, h2, h3, ?_⟩
      simpa [resolveDefs, hlook] using heq
    | none =>
      cases hdef : d.default with
      | some dv =>
        have hrest : ∃ e ∈ rest, e.required.getD false = true ∧ e.default = none ∧
            lookupVar provided e.name = none := by
          obtain ⟨e, he, h1, h2, h3⟩ := h
          rcases List.mem_cons.mp he with rfl | hmem
          · rw [hdef] at h2; exact absurd h2 (by simp)
          · exact ⟨e, hmem, h1, h2, h3⟩
        obtain ⟨e, he, h1, h2, h3, heq⟩ := ih (setVar acc d.name dv) hrest
        refine ⟨e, List.mem_cons_of_mem d he, h1, h2, h3, ?_⟩
        simpa [resolveDefs, hlook, hdef] using heq
      | none =>
        cases hreq : d.required.getD false with
        | true =>
          refine ⟨d, List.mem_cons_self d rest, hreq, hdef, hlook, ?_⟩
          simp [resolveDefs, hlook, hdef, hreq]
        | false =>
          have hrest : ∃ e ∈ rest, e.required.getD false = true ∧ e.default = none ∧
              lookupVar provided e.name = none := by
            obtain ⟨e, he, h1, h2, h3⟩ := h
            rcases List.mem_cons.mp he with rfl | hmem
            · rw [hreq] at h1; exact absurd h1 (by simp)
            · exact ⟨e, hmem, h1, h2, h3⟩
          obtain ⟨e, he, h1, h2, h3, heq⟩ := ih acc hrest
          refine ⟨e, List.mem_cons_of_mem d he, h1, h2, h3, ?_⟩
          simpa [resolveDefs, hlook, hdef, hreq] using heq

/-- Claim C1: whenever some declared variable is required, has no
default, and has no caller-supplied value, variable resolution fails
with the `Required variable missing` error naming such a variable (the
first one the declaration loop reaches), and `compile` of any
extends-free template carrying those declarations fails identically. -/
theorem c1_missing_required_variable_fails (defs : List TemplateVariable)
    (provided : VarMap)
    (h : ∃ d ∈ defs, d.required.getD false = true ∧ d.default = none ∧
      lookupVar provided d.name = none) :
    ∃ d ∈ defs, d.required.getD false = true ∧ d.default = none ∧
      lookupVar provided d.name = none ∧
      resolveVariables defs provided = .error ("Required variable missing: " ++ d.name) ∧
      ∀ reg fuel now meta sections prompts,
        compile reg fuel now ⟨meta, defs, sections, none, prompts⟩ provided =
          .error ("Required variable missing: " ++ d.name) := by
  obtain ⟨d, hd, h1, h2, h3, heq⟩ := resolveDefs_missing provided defs [] h
  have hres : resolveVariables defs provided =
      .error ("Required variable missing: " ++ d.name) := by
    simp [resolveVariables, heq]
  refine ⟨d, hd, h1, h2, h3, hres, ?_⟩
  intro reg fuel now meta sections prompts
  simp [compile, resolveInheritance, hres]

/-- Witness for C1: the spec's example scenario 1 — a template declaring
the variable `name` (required, no default) compiled with the empty
mapping fails with `Required variable missing: name`. -/
theorem c1_missing_required_variable_fails_witness :
    resolveVariables [⟨"name", none, some true⟩] [] =
      .error "Required variable missing: name" ∧
    compile [] 3 ⟨2020, 0, 1, 0, 0, 0⟩
      ⟨⟨"t1", "T1", "doc", "1.0.0", "custom", "standard", none⟩,
        [⟨"name", none, some true⟩], [], none, []⟩ [] =
      .error "Required variable missing: name" := by
  obtain ⟨d, hd, _, _, _, hres, hcomp⟩ :=
    c1_missing_required_variable_fails [⟨"name", none, some true⟩] []
      ⟨⟨"name", none, some true⟩, by simp, by simp, rfl, rfl⟩
  have hdn : d = (⟨"name", none, some true⟩ : TemplateVariable) := by simpa using hd
  subst hdn
  exact ⟨hres, hcomp [] 3 ⟨2020, 0, 1, 0, 0, 0⟩ _ _ _⟩

/-! ## Claim C7 -/

theorem lookupVar_ne_undef (vars : VarMap) (name : String) :
    lookupVar vars name ≠ some .vUndef := by
  induction vars with
  | nil => simp [lookupVar]
  | cons kv rest ih =>
    cases kv with
    | mk k v =>
      by_cases hk : k = name
      · subst hk
        cases v <;> simp [lookupVar]
      · simpa [lookupVar, hk] using ih

theorem evaluateCondition_not_exists (vars : VarMap) (cv : String) (cval : Value) :
    evaluateCondition ⟨cv, .opNotExists, cval⟩ vars = absentNullOrEmpty vars cv := by
  unfold evaluateCondition absentNullOrEmpty
  cases h : lookupVar vars cv with
  | none => rfl
  | some v =>
    cases v with
    | vUndef => exact absurd h (lookupVar_ne_undef vars cv)
    | vNull => rfl
    | vBool b => rfl
    | vNum n => rfl
    | vStr s => rfl
    | vArr xs => rfl
    | vObj fs => rfl

/-- Claim C7: a section whose condition is `not_exists` on a variable is
included in the compiled output (in its sibling position, fully
compiled) exactly when that variable is absent from the resolved
mapping, `null`, or the empty string, and is excluded when the variable
is present, non-null and non-empty — stated for an arbitrary sibling
context `pre`/`post` via the decidable visibility test
`absentNullOrEmpty`. -/
theorem c7_not_exists_inclusion (now : JsDate) (vars : VarMap)
    (pre post : List TemplateSection) (i ti co : String) (o : Option Int)
    (cv : String) (cval : Value) (subs : Option (List TemplateSection))
    (pr : Option String) :
    compileSections now vars
        (pre ++ TemplateSection.mk i ti co o (some ⟨cv, .opNotExists, cval⟩) subs pr :: post) =
      compileSections now vars pre ++
        (if absentNullOrEmpty vars cv then
          [CompiledSection.mk i (interpolate now vars ti) (interpolate now vars co)
            (compileSubs now vars subs)]
         else []) ++
        compileSections now vars post := by
  induction pre with
  | nil =>
    simp only [List.nil_append]
    cases h : absentNullOrEmpty vars cv with
    | true =>
      simp [compileSections, TemplateSection.condition, evaluateCondition_not_exists, h,
        compileSection]
    | false =>
      simp [compileSections, TemplateSection.condition, evaluateCondition_not_exists, h]
  | cons p rest ih =>
    rw [List.cons_append, compileSections]
    cases hc : TemplateSection.condition p with
    | none =>
      simp only [hc]
      rw [compileSections]
      simp only [hc, ih]
      simp
    | some c =>
      simp only [hc]
      rw [compileSections]
      simp only [hc]
      cases he : evaluateCondition c vars with
      | true =>
        simp only [he, if_true]
        rw [ih]
        simp
      | false =>
        simp only [he, Bool.false_eq_true, if_false]
        exact ih

/-- Witness for C7: a `not_exists` section on `flag` is included when
`flag` is absent and excluded when `flag` holds a non-empty string. -/
theorem c7_not_exists_inclusion_witness :
    compileSections ⟨2020, 0, 1, 0, 0, 0⟩ []
        [TemplateSection.mk "s" "T" "C" none (some ⟨"flag", .opNotExists, .vUndef⟩) none none] =
      [CompiledSection.mk "s" "T" "C" none] ∧
    compileSections ⟨2020, 0, 1, 0, 0, 0⟩ [("flag", .vStr "yes")]
        [TemplateSection.mk "s" "T" "C" none (some ⟨"flag", .opNotExists, .vUndef⟩) none none] =
      [] := by
  constructor
  · have h := c7_not_exists_inclusion ⟨2020, 0, 1, 0, 0, 0⟩ [] [] [] "s" "T" "C" none
      "flag" .vUndef none none
    simpa using h
  · have h := c7_not_exists_inclusion ⟨2020, 0, 1, 0, 0, 0⟩ [("flag", .vStr "yes")] [] []
      "s" "T" "C" none "flag" .vUndef none none
    simpa using h

/-! ## Claim C3 -/

/-- Counterexample to claim C3: interpolating
`{{join techStack ", "}}` with `techStack = ["Go","Rust"]` does not
produce `Go, Rust` — the whitespace split of the argument string breaks
the quoted separator `", "` into the tokens `",` (kept raw) and `"`
(an empty quoted literal), so `join` is called with separator `",` and
the output is `Go",Rust`. -/
theorem c3_join_quoted_separator_counterexample :
    interpolate ⟨2020, 0, 1, 0, 0, 0⟩ [("techStack", .vArr [.vStr "Go", .vStr "Rust"])]
        "\x7b\x7bjoin techStack \", \"\x7d\x7d" = "Go\",Rust" ∧
      ("Go\",Rust" : String) ≠ "Go, Rust" := by
  constructor
  · rfl
  · decide

/-- Claim C3 as amended: interpolating
`{{join techStack ", "}}` with `techStack = ["Go","Rust"]` produces
exactly `Go",Rust` — helper arguments are whitespace-split (which cuts
the quoted separator into `",` and `"`), each token is resolved as
variable, then quoted literal, then number, then raw string, and `join`
receives the raw separator token `",`. -/
theorem c3_join_whitespace_split_output :
    interpolate ⟨2020, 0, 1, 0, 0, 0⟩ [("techStack", .vArr [.vStr "Go", .vStr "Rust"])]
        "\x7b\x7bjoin techStack \", \"\x7d\x7d" = "Go\",Rust" := rfl

/-! ## Claim C8 -/

mutual

theorem renderSection_spec : (d : Nat) → (s : CompiledSection) →
    renderSection (d + 1) s = renderSectionSpec d s
  | d, .mk i t c subs => by
    simp only [renderSection, renderSectionSpec]
    rw [renderSubs_spec (d + 1) subs]

theorem renderSubs_spec : (d : Nat) → (o : Option (List CompiledSection)) →
    renderSubs (d + 1) o = renderSubsSpec d o
  | _, none => rfl
  | d, some l => by
    simp only [renderSubs, renderSubsSpec]
    exact renderList_spec d l

theorem renderList_spec : (d : Nat) → (l : List CompiledSection) →
    renderList (d + 1) l = renderListSpec d l
  | _, [] => rfl
  | d, s :: rest => by
    simp only [renderList, renderListSpec]
    rw [renderSection_spec d s, renderList_spec d rest]

end

/-- Claim C8: `render` emits the interpolated template name as a
top-level heading and then walks the compiled tree exactly as the
depth-indexed specification renderer does — every section's title
becomes a heading at level `nesting depth + 1` capped at 6 (top-level
sections sit at depth 1), trimmed content is emitted only when non-blank
(a blank-content section still emits its heading), and children follow
at the next depth. -/
theorem c8_render_matches_depth_spec (now : JsDate) (c : CompiledTemplate) :
    render now c = renderSpec now c := by
  unfold render renderSpec
  have h := renderList_spec 1 c.sections
  norm_num at h
  rw [h]

/-! ## Inertness of the block and loop patterns at a bare reference -/

theorem tryIfElse_no_second_lb (vars : VarMap) (c : Char) (r : List Char)
    (hc : c ≠ '\x7b') : tryIfElse vars ('\x7b' :: c :: r) = none := by
  unfold tryIfElse
  split
  · rename_i rest heq
    injection heq with _ h2
    injection h2 with h3 _
    exact absurd h3 hc
  · rfl

theorem tryIf_no_second_lb (vars : VarMap) (c : Char) (r : List Char)
    (hc : c ≠ '\x7b') : tryIf vars ('\x7b' :: c :: r) = none := by
  unfold tryIf
  split
  · rename_i rest heq
    injection heq with _ h2
    injection h2 with h3 _
    exact absurd h3 hc
  · rfl

theorem tryUnless_no_second_lb (vars : VarMap) (c : Char) (r : List Char)
    (hc : c ≠ '\x7b') : tryUnless vars ('\x7b' :: c :: r) = none := by
  unfold tryUnless
  split
  · rename_i rest heq
    injection heq with _ h2
    injection h2 with h3 _
    exact absurd h3 hc
  · rfl

theorem tryEach_no_second_lb (vars : VarMap) (c : Char) (r : List Char)
    (hc : c ≠ '\x7b') : tryEach vars ('\x7b' :: c :: r) = none := by
  unfold tryEach
  split
  · rename_i rest heq
    injection heq with _ h2
    injection h2 with h3 _
    exact absurd h3 hc
  · rfl

theorem tryIfElse_no_hash (vars : VarMap) (c : Char) (r : List Char)
    (hc : c ≠ '#') : tryIfElse vars ('\x7b' :: '\x7b' :: c :: r) = none := by
  unfold tryIfElse
  split
  · rename_i rest heq
    injection heq with _ h2
    injection h2 with _ h3
    injection h3 with h4 _
    exact absurd h4 hc
  · rfl

theorem tryIf_no_hash (vars : VarMap) (c : Char) (r : List Char)
    (hc : c ≠ '#') : tryIf vars ('\x7b' :: '\x7b' :: c :: r) = none := by
  unfold tryIf
  split
  · rename_i rest heq
    injection heq with _ h2
    injection h2 with _ h3
    injection h3 with h4 _
    exact absurd h4 hc
  · rfl

theorem tryUnless_no_hash (vars : VarMap) (c : Char) (r : List Char)
    (hc : c ≠ '#') : tryUnless vars ('\x7b' :: '\x7b' :: c :: r) = none := by
  unfold tryUnless
  split
  · rename_i rest heq
    injection heq with _ h2
    injection h2 with _ h3
    injection h3 with h4 _
    exact absurd h4 hc
  · rfl

theorem tryEach_no_hash (vars : VarMap) (c : Char) (r : List Char)
    (hc : c ≠ '#') : tryEach vars ('\x7b' :: '\x7b' :: c :: r) = none := by
  unfold tryEach
  split
  · rename_i rest heq
    injection heq with _ h2
    injection h2 with _ h3
    injection h3 with h4 _
    exact absurd h4 hc
  · rfl

theorem isWordChar_not_hash (c : Char) (h : isWordChar c = true) : c ≠ '#' := by
  intro hc
  subst hc
  simp [isWordChar] at h

theorem scanRep_inert_ref (f : List Char → Option (List Char × Nat)) (hf : headLB f)
    (wstr : String) (post : List Char) (hw : wordOnly wstr) (hpost : lbFree post)
    (hb : f ('\x7b' :: '\x7b' :: (wstr.data ++ '\x7d' :: '\x7d' :: post)) = none)
    (hb2 : f ('\x7b' :: (wstr.data ++ '\x7d' :: '\x7d' :: post)) = none) :
    scanRep f ('\x7b' :: '\x7b' :: (wstr.data ++ '\x7d' :: '\x7d' :: post)) =
      '\x7b' :: '\x7b' :: (wstr.data ++ '\x7d' :: '\x7d' :: post) := by
  rw [scanRep_cons_none f _ _ hb, scanRep_cons_none f _ _ hb2,
    scanRep_append_lbFree f hf wstr.data (lbFree_of_word wstr.data hw) ('\x7d' :: '\x7d' :: post),
    scanRep_cons_none f _ _ (hf '\x7d' ('\x7d' :: post) (by decide)),
    scanRep_cons_none f _ _ (hf '\x7d' post (by decide)),
    scanRep_lbFree_id f hf post hpost]

theorem condPass_inert_ref (vars : VarMap) (wstr : String) (post : List Char)
    (hw : wordOnly wstr) (hne : wstr.data ≠ []) (hpost : lbFree post) :
    condPass vars ('\x7b' :: '\x7b' :: (wstr.data ++ '\x7d' :: '\x7d' :: post)) =
      '\x7b' :: '\x7b' :: (wstr.data ++ '\x7d' :: '\x7d' :: post) := by
  obtain ⟨c, w', hcw⟩ : ∃ c w', wstr.data = c :: w' := by
    cases hd : wstr.data with
    | nil => exact absurd hd hne
    | cons c w' => exact ⟨c, w', rfl⟩
  have hcword : isWordChar c = true := hw c (by rw [hcw]; simp)
  have hchash : c ≠ '#' := isWordChar_not_hash c hcword
  have hclb : c ≠ '\x7b' := isWordChar_not_lbrace c hcword
  unfold condPass
  rw [scanRep_inert_ref _ (tryIfElse_headLB vars) wstr post hw hpost
      (by rw [hcw]; exact tryIfElse_no_hash vars c _ hchash)
      (by rw [hcw]; exact tryIfElse_no_second_lb vars c _ hclb),
    scanRep_inert_ref _ (tryIf_headLB vars) wstr post hw hpost
      (by rw [hcw]; exact tryIf_no_hash vars c _ hchash)
      (by rw [hcw]; exact tryIf_no_second_lb vars c _ hclb),
    scanRep_inert_ref _ (tryUnless_headLB vars) wstr post hw hpost
      (by rw [hcw]; exact tryUnless_no_hash vars c _ hchash)
      (by rw [hcw]; exact tryUnless_no_second_lb vars c _ hclb)]

theorem loopPass_inert_ref (vars : VarMap) (wstr : String) (post : List Char)
    (hw : wordOnly wstr) (hne : wstr.data ≠ []) (hpost : lbFree post) :
    loopPass vars ('\x7b' :: '\x7b' :: (wstr.data ++ '\x7d' :: '\x7d' :: post)) =
      '\x7b' :: '\x7b' :: (wstr.data ++ '\x7d' :: '\x7d' :: post) := by
  obtain ⟨c, w', hcw⟩ : ∃ c w', wstr.data = c :: w' := by
    cases hd : wstr.data with
    | nil => exact absurd hd hne
    | cons c w' => exact ⟨c, w', rfl⟩
  have hcword : isWordChar c = true := hw c (by rw [hcw]; simp)
  have hchash : c ≠ '#' := isWordChar_not_hash c hcword
  have hclb : c ≠ '\x7b' := isWordChar_not_lbrace c hcword
  unfold loopPass
  rw [scanRep_inert_ref _ (tryEach_headLB vars) wstr post hw hpost
    (by rw [hcw]; exact tryEach_no_hash vars c _ hchash)
    (by rw [hcw]; exact tryEach_no_second_lb vars c _ hclb)]

/-! ## Pass behaviour at a bare reference -/

theorem string_mk_data (s : String) : String.mk s.data = s := by
  cases s
  rfl

theorem isEmpty_false_of_ne_nil (l : List Char) (h : l ≠ []) : l.isEmpty = false := by
  cases l with
  | nil => exact absurd rfl h
  | cons c r => rfl

theorem tryPlain_ref (vars : VarMap) (wstr : String) (post : List Char)
    (hw : wordOnly wstr) (hne : wstr.data ≠ []) :
    tryPlain vars ('\x7b' :: '\x7b' :: (wstr.data ++ '\x7d' :: '\x7d' :: post)) =
      some ((match lookupVar vars wstr with
             | some v => (jsToString v).data
             | none => obrace ++ wstr.data ++ cbrace), wstr.data.length + 3) := by
  have htake : (wstr.data ++ '\x7d' :: '\x7d' :: post).takeWhile isWordChar = wstr.data :=
    takeWhile_word_append wstr.data hw '\x7d' (by decide) _
  have hdrop : (wstr.data ++ '\x7d' :: '\x7d' :: post).drop wstr.data.length =
      '\x7d' :: '\x7d' :: post := List.drop_left wstr.data _
  have hemp : wstr.data.isEmpty = false := isEmpty_false_of_ne_nil wstr.data hne
  simp only [tryPlain, htake, hdrop, hemp, string_mk_data, Bool.false_eq_true, if_false]

theorem plainPass_ref (vars : VarMap) (wstr : String) (post : List Char)
    (hw : wordOnly wstr) (hne : wstr.data ≠ []) (hpost : lbFree post) :
    plainPass vars ('\x7b' :: '\x7b' :: (wstr.data ++ '\x7d' :: '\x7d' :: post)) =
      (match lookupVar vars wstr with
       | some v => (jsToString v).data
       | none => obrace ++ wstr.data ++ cbrace) ++ post := by
  unfold plainPass
  rw [scanRep_cons_some _ _ _ _ _ (tryPlain_ref vars wstr post hw hne)]
  have harr : '\x7b' :: (wstr.data ++ '\x7d' :: '\x7d' :: post) =
      ('\x7b' :: (wstr.data ++ ['\x7d', '\x7d'])) ++ post := by simp
  have hlen : wstr.data.length + 3 = ('\x7b' :: (wstr.data ++ ['\x7d', '\x7d'])).length := by
    simp
  rw [harr, hlen, scanAux_skip_all]
  have hpost' : scanAux (tryPlain vars) post 0 = post :=
    scanRep_lbFree_id _ (tryPlain_headLB vars) post hpost
  rw [hpost']

theorem tryHelper_ref (now : JsDate) (vars : VarMap) (wstr : String) (post : List Char)
    (hw : wordOnly wstr) (hne : wstr.data ≠ []) :
    tryHelper now vars ('\x7b' :: '\x7b' :: (wstr.data ++ '\x7d' :: '\x7d' :: post)) =
      some (helperRep now vars wstr.data [] none, wstr.data.length + 3) := by
  have htake : (wstr.data ++ '\x7d' :: '\x7d' :: post).takeWhile isWordChar = wstr.data :=
    takeWhile_word_append wstr.data hw '\x7d' (by decide) _
  have hdrop : (wstr.data ++ '\x7d' :: '\x7d' :: post).drop wstr.data.length =
      '\x7d' :: '\x7d' :: post := List.drop_left wstr.data _
  have hemp : wstr.data.isEmpty = false := isEmpty_false_of_ne_nil wstr.data hne
  simp only [tryHelper, htake, hdrop, hemp, Bool.false_eq_true, if_false]

theorem helperPass_ref (now : JsDate) (vars : VarMap) (wstr : String) (post : List Char)
    (hw : wordOnly wstr) (hne : wstr.data ≠ []) (hpost : lbFree post) :
    helperPass now vars ('\x7b' :: '\x7b' :: (wstr.data ++ '\x7d' :: '\x7d' :: post)) =
      helperRep now vars wstr.data [] none ++ post := by
  unfold helperPass
  rw [scanRep_cons_some _ _ _ _ _ (tryHelper_ref now vars wstr post hw hne)]
  have harr : '\x7b' :: (wstr.data ++ '\x7d' :: '\x7d' :: post) =
      ('\x7b' :: (wstr.data ++ ['\x7d', '\x7d'])) ++ post := by simp
  have hlen : wstr.data.length + 3 = ('\x7b' :: (wstr.data ++ ['\x7d', '\x7d'])).length := by
    simp
  rw [harr, hlen, scanAux_skip_all]
  have hpost' : scanAux (tryHelper now vars) post 0 = post :=
    scanRep_lbFree_id _ (tryHelper_headLB now vars) post hpost
  rw [hpost']

theorem condPass_append_lbFree (vars : VarMap) (m : List Char) (hm : lbFree m)
    (rest : List Char) : condPass vars (m ++ rest) = m ++ condPass vars rest := by
  unfold condPass
  rw [scanRep_append_lbFree _ (tryIfElse_headLB vars) m hm rest,
    scanRep_append_lbFree _ (tryIf_headLB vars) m hm _,
    scanRep_append_lbFree _ (tryUnless_headLB vars) m hm _]

theorem interpolateL_lbFree (now : JsDate) (vars : VarMap) (l : List Char)
    (hl : lbFree l) : interpolateL now vars l = l := by
  unfold interpolateL condPass plainPass loopPass helperPass
  rw [scanRep_lbFree_id _ (tryPlain_headLB vars) l hl,
    scanRep_lbFree_id _ (tryIfElse_headLB vars) l hl,
    scanRep_lbFree_id _ (tryIf_headLB vars) l hl,
    scanRep_lbFree_id _ (tryUnless_headLB vars) l hl,
    scanRep_lbFree_id _ (tryEach_headLB vars) l hl,
    scanRep_lbFree_id _ (tryHelper_headLB now vars) l hl]

theorem interpolate_lbFree (now : JsDate) (vars : VarMap) (s : String)
    (hs : lbFree s.data) : interpolate now vars s = s := by
  unfold interpolate
  rw [interpolateL_lbFree now vars s.data hs, string_mk_data]

theorem condPass_lbFree_id (vars : VarMap) (l : List Char) (hl : lbFree l) :
    condPass vars l = l := by
  have h := condPass_append_lbFree vars l hl []
  have h0 : condPass vars [] = [] := rfl
  rw [h0, List.append_nil] at h
  simpa using h

theorem loopPass_lbFree_id (vars : VarMap) (l : List Char) (hl : lbFree l) :
    loopPass vars l = l :=
  scanRep_lbFree_id _ (tryEach_headLB vars) l hl

theorem helperPass_lbFree_id (now : JsDate) (vars : VarMap) (l : List Char)
    (hl : lbFree l) : helperPass now vars l = l :=
  scanRep_lbFree_id _ (tryHelper_headLB now vars) l hl

theorem interpolateL_untouched_ref (now : JsDate) (vars : VarMap) (wstr : String)
    (pre post : List Char) (hw : wordOnly wstr) (hne : wstr.data ≠ [])
    (hpre : lbFree pre) (hpost : lbFree post)
    (hvar : lookupVar vars wstr = none) (hhelp : lookupHelper now wstr = none) :
    interpolateL now vars (pre ++ ('\x7b' :: '\x7b' :: (wstr.data ++ '\x7d' :: '\x7d' :: post))) =
      pre ++ ('\x7b' :: '\x7b' :: (wstr.data ++ '\x7d' :: '\x7d' :: post)) := by
  have h1 : plainPass vars (pre ++ ('\x7b' :: '\x7b' :: (wstr.data ++ '\x7d' :: '\x7d' :: post))) =
      pre ++ ('\x7b' :: '\x7b' :: (wstr.data ++ '\x7d' :: '\x7d' :: post)) := by
    unfold plainPass
    rw [scanRep_append_lbFree _ (tryPlain_headLB vars) pre hpre]
    have h := plainPass_ref vars wstr post hw hne hpost
    unfold plainPass at h
    rw [h, hvar]
    simp
  have h2 : condPass vars (pre ++ ('\x7b' :: '\x7b' :: (wstr.data ++ '\x7d' :: '\x7d' :: post))) =
      pre ++ ('\x7b' :: '\x7b' :: (wstr.data ++ '\x7d' :: '\x7d' :: post)) := by
    rw [condPass_append_lbFree vars pre hpre, condPass_inert_ref vars wstr post hw hne hpost]
  have h3 : loopPass vars (pre ++ ('\x7b' :: '\x7b' :: (wstr.data ++ '\x7d' :: '\x7d' :: post))) =
      pre ++ ('\x7b' :: '\x7b' :: (wstr.data ++ '\x7d' :: '\x7d' :: post)) := by
    unfold loopPass
    rw [scanRep_append_lbFree _ (tryEach_headLB vars) pre hpre]
    have h := loopPass_inert_ref vars wstr post hw hne hpost
    unfold loopPass at h
    rw [h]
  have h4 : helperPass now vars
        (pre ++ ('\x7b' :: '\x7b' :: (wstr.data ++ '\x7d' :: '\x7d' :: post))) =
      pre ++ ('\x7b' :: '\x7b' :: (wstr.data ++ '\x7d' :: '\x7d' :: post)) := by
    unfold helperPass
    rw [scanRep_append_lbFree _ (tryHelper_headLB now vars) pre hpre]
    have h := helperPass_ref now vars wstr post hw hne hpost
    unfold helperPass at h
    rw [h]
    unfold helperRep
    rw [string_mk_data, hhelp]
    simp
  unfold interpolateL
  rw [h1, h2, h3, h4]

/-! ## Claim C2 -/

/-- Counterexample to claim C2 as universally stated: `uppercase` is a
bare word absent from the empty resolved mapping, yet
`{{uppercase}}` is not left untouched — the helper-call pass replaces it
by the empty string, which does not contain the original reference. -/
theorem c2_unresolved_reference_counterexample :
    interpolate ⟨2020, 0, 1, 0, 0, 0⟩ [] "\x7b\x7buppercase\x7d\x7d" = "" ∧
      strIncludes "" "\x7b\x7buppercase\x7d\x7d" = false := ⟨rfl, rfl⟩

/-- Claim C2 as amended: a double-brace reference consisting of a single
bare word that is neither a key of the resolved mapping nor the name of
a registered helper is left untouched in its original literal form by
interpolation, in any brace-free context. -/
theorem c2_amended_unresolved_reference_untouched (now : JsDate) (vars : VarMap)
    (wstr : String) (pre post : List Char) (hw : wordOnly wstr) (hne : wstr.data ≠ [])
    (hpre : lbFree pre) (hpost : lbFree post)
    (hvar : lookupVar vars wstr = none) (hhelp : lookupHelper now wstr = none) :
    interpolate now vars (String.mk (pre ++ obrace ++ wstr.data ++ cbrace ++ post)) =
      String.mk (pre ++ obrace ++ wstr.data ++ cbrace ++ post) := by
  have hshape : pre ++ obrace ++ wstr.data ++ cbrace ++ post =
      pre ++ ('\x7b' :: '\x7b' :: (wstr.data ++ '\x7d' :: '\x7d' :: post)) := by simp
  unfold interpolate
  rw [show (String.mk (pre ++ obrace ++ wstr.data ++ cbrace ++ post)).data =
      pre ++ obrace ++ wstr.data ++ cbrace ++ post from rfl, hshape,
    interpolateL_untouched_ref now vars wstr pre post hw hne hpre hpost hvar hhelp]

/-- Witness for C2: the spec's example scenario 5 — `{{unknownVar}}`
with no such variable declared or provided is returned literally. -/
theorem c2_amended_unresolved_reference_untouched_witness :
    interpolate ⟨2020, 0, 1, 0, 0, 0⟩ []
        (String.mk ([] ++ obrace ++ "unknownVar".data ++ cbrace ++ [])) =
      String.mk ([] ++ obrace ++ "unknownVar".data ++ cbrace ++ []) := by
  exact c2_amended_unresolved_reference_untouched ⟨2020, 0, 1, 0, 0, 0⟩ [] "unknownVar" [] []
    (by decide) (by decide) (by simp [lbFree]) (by simp [lbFree]) rfl rfl

/-! ## Claim C10 -/

/-- Claim C10: a bare double-brace word that is not a resolved variable
but is a registered helper name is not left literal — the helper pass
calls the helper with an empty argument list and substitutes its
stringified result: `{{uppercase}}` becomes the empty string and
`{{date}}` becomes the formatted current date; and a resolved variable
named like a helper takes precedence because plain substitution runs
first. -/
theorem c10_bare_helper_invocation (now : JsDate) (vars : VarMap) (v : Value) :
    (lookupVar vars "uppercase" = none →
      interpolate now vars "\x7b\x7buppercase\x7d\x7d" = "") ∧
    (lookupVar vars "date" = none →
      interpolate now vars "\x7b\x7bdate\x7d\x7d" = formatDate now "YYYY-MM-DD") ∧
    (lookupVar vars "date" = some v → lbFree (jsToString v).data →
      interpolate now vars "\x7b\x7bdate\x7d\x7d" = jsToString v) := by
  refine ⟨?_, ?_, ?_⟩
  · intro hvar
    have hdata : ("\x7b\x7buppercase\x7d\x7d" : String).data =
        '\x7b' :: '\x7b' :: ("uppercase".data ++ '\x7d' :: '\x7d' :: []) := rfl
    unfold interpolate interpolateL
    rw [hdata]
    have h1 := plainPass_ref vars "uppercase" [] (by decide) (by decide) (by simp [lbFree])
    rw [h1, hvar]
    have h2 := condPass_inert_ref vars "uppercase" [] (by decide) (by decide) (by simp [lbFree])
    have h3 := loopPass_inert_ref vars "uppercase" [] (by decide) (by decide) (by simp [lbFree])
    have h4 := helperPass_ref now vars "uppercase" [] (by decide) (by decide) (by simp [lbFree])
    simp only [List.append_nil]
    have hsh : (obrace ++ "uppercase".data ++ cbrace : List Char) =
        '\x7b' :: '\x7b' :: ("uppercase".data ++ '\x7d' :: '\x7d' :: []) := by simp
    rw [hsh, h2, h3, h4]
    rfl
  · intro hvar
    have hdata : ("\x7b\x7bdate\x7d\x7d" : String).data =
        '\x7b' :: '\x7b' :: ("date".data ++ '\x7d' :: '\x7d' :: []) := rfl
    unfold interpolate interpolateL
    rw [hdata]
    have h1 := plainPass_ref vars "date" [] (by decide) (by decide) (by simp [lbFree])
    rw [h1, hvar]
    have h2 := condPass_inert_ref vars "date" [] (by decide) (by decide) (by simp [lbFree])
    have h3 := loopPass_inert_ref vars "date" [] (by decide) (by decide) (by simp [lbFree])
    have h4 := helperPass_ref now vars "date" [] (by decide) (by decide) (by simp [lbFree])
    simp only [List.append_nil]
    have hsh : (obrace ++ "date".data ++ cbrace : List Char) =
        '\x7b' :: '\x7b' :: ("date".data ++ '\x7d' :: '\x7d' :: []) := by simp
    rw [hsh, h2, h3, h4]
    show String.mk ((jsToString (helperDate now [])).data ++ []) = formatDate now "YYYY-MM-DD"
    simp only [List.append_nil]
    show String.mk (formatDate now "YYYY-MM-DD").data = formatDate now "YYYY-MM-DD"
    exact string_mk_data _
  · intro hvar hfree
    have hdata : ("\x7b\x7bdate\x7d\x7d" : String).data =
        '\x7b' :: '\x7b' :: ("date".data ++ '\x7d' :: '\x7d' :: []) := rfl
    unfold interpolate interpolateL
    rw [hdata]
    have h1 := plainPass_ref vars "date" [] (by decide) (by decide) (by simp [lbFree])
    rw [h1, hvar]
    simp only [List.append_nil]
    rw [condPass_lbFree_id vars _ hfree, loopPass_lbFree_id vars _ hfree,
      helperPass_lbFree_id now vars _ hfree, string_mk_data]

/-- Witness for C10 at concrete inputs: the empty mapping sends
`{{uppercase}}` to the empty string and `{{date}}` to the formatted
clock date, while a resolved `date` variable overrides the helper. -/
theorem c10_bare_helper_invocation_witness :
    interpolate ⟨2020, 0, 1, 0, 0, 0⟩ [] "\x7b\x7buppercase\x7d\x7d" = "" ∧
    interpolate ⟨2020, 0, 1, 0, 0, 0⟩ [] "\x7b\x7bdate\x7d\x7d" = "2020-01-01" ∧
    interpolate ⟨2020, 0, 1, 0, 0, 0⟩ [("date", .vStr "fixed")] "\x7b\x7bdate\x7d\x7d" =
      "fixed" := by
  have ha := (c10_bare_helper_invocation ⟨2020, 0, 1, 0, 0, 0⟩ [] .vUndef).1 rfl
  have hb := (c10_bare_helper_invocation ⟨2020, 0, 1, 0, 0, 0⟩ [] .vUndef).2.1 rfl
  have hc := (c10_bare_helper_invocation ⟨2020, 0, 1, 0, 0, 0⟩
    [("date", .vStr "fixed")] (.vStr "fixed")).2.2 rfl (by decide)
  refine ⟨ha, ?_, ?_⟩
  · rw [hb]
    rfl
  · rw [hc]
    rfl

/-! ## Claim C4 -/

mutual

theorem compileSections_clock (now1 now2 : JsDate) (vars : VarMap) :
    (l : List TemplateSection) → listLbFree l = true →
    compileSections now1 vars l = compileSections now2 vars l
  | [], _ => rfl
  | s :: rest, h => by
    have hs : sectionLbFree s = true := by
      simp only [listLbFree, Bool.and_eq_true] at h
      exact h.1
    have hr : listLbFree rest = true := by
      simp only [listLbFree, Bool.and_eq_true] at h
      exact h.2
    simp only [compileSections]
    cases hc : TemplateSection.condition s with
    | none =>
      rw [compileSection_clock now1 now2 vars s hs,
        compileSections_clock now1 now2 vars rest hr]
    | some c =>
      cases he : evaluateCondition c vars with
      | true =>
        simp only [he, if_true]
        rw [compileSection_clock now1 now2 vars s hs,
          compileSections_clock now1 now2 vars rest hr]
      | false =>
        simp only [he, Bool.false_eq_true, if_false]
        exact compileSections_clock now1 now2 vars rest hr

theorem compileSection_clock (now1 now2 : JsDate) (vars : VarMap) :
    (s : TemplateSection) → sectionLbFree s = true →
    compileSection now1 vars s = compileSection now2 vars s
  | .mk i t c o cnd subs p, h => by
    have hparts := h
    simp [sectionLbFree] at hparts
    have ht : lbFree t.data := hparts.1.1
    have hc : lbFree c.data := hparts.1.2
    have hsubs : subsLbFree subs = true := hparts.2
    simp only [compileSection]
    rw [interpolate_lbFree now1 vars t ht, interpolate_lbFree now2 vars t ht,
      interpolate_lbFree now1 vars c hc, interpolate_lbFree now2 vars c hc,
      compileSubs_clock now1 now2 vars subs hsubs]

theorem compileSubs_clock (now1 now2 : JsDate) (vars : VarMap) :
    (o : Option (List TemplateSection)) → subsLbFree o = true →
    compileSubs now1 vars o = compileSubs now2 vars o
  | none, _ => rfl
  | some l, h => by
    simp only [compileSubs]
    rw [compileSections_clock now1 now2 vars l (by simpa [subsLbFree] using h)]

end

/-- Counterexample to claim C4 as universally stated: compiling the same
(template, context) pair at two different clock instants yields
different `CompiledTemplate` outputs when a section content invokes the
clock-reading `date` helper — so `compile` does not depend only on its
two arguments and the registry. -/
theorem c4_clock_dependence_counterexample :
    compile [] 1 ⟨2020, 0, 1, 0, 0, 0⟩
        ⟨⟨"t", "T", "d", "1.0.0", "custom", "standard", none⟩, [],
          [TemplateSection.mk "s" "S" "\x7b\x7bdate\x7d\x7d" none none none none],
          none, []⟩ [] ≠
      compile [] 1 ⟨2021, 5, 15, 0, 0, 0⟩
        ⟨⟨"t", "T", "d", "1.0.0", "custom", "standard", none⟩, [],
          [TemplateSection.mk "s" "S" "\x7b\x7bdate\x7d\x7d" none none none none],
          none, []⟩ [] := by
  intro h
  have h2 := congrArg firstSectionContent h
  have e1 : firstSectionContent (compile [] 1 ⟨2020, 0, 1, 0, 0, 0⟩
      ⟨⟨"t", "T", "d", "1.0.0", "custom", "standard", none⟩, [],
        [TemplateSection.mk "s" "S" "\x7b\x7bdate\x7d\x7d" none none none none],
        none, []⟩ []) = some "2020-01-01" := rfl
  have e2 : firstSectionContent (compile [] 1 ⟨2021, 5, 15, 0, 0, 0⟩
      ⟨⟨"t", "T", "d", "1.0.0", "custom", "standard", none⟩, [],
        [TemplateSection.mk "s" "S" "\x7b\x7bdate\x7d\x7d" none none none none],
        none, []⟩ []) = some "2021-06-15" := rfl
  rw [e1, e2] at h2
  exact absurd h2 (by decide)

/-- Claim C4 as amended: `compile` is a pure function of template,
context, registry and the current clock instant; the clock enters only
through interpolation's `date` helper, so whenever every title and
content of the resolved template's section tree is free of interpolation
markers, the compiled output is independent of the clock and
re-compiling the same `(template, context)` pair yields identical
output. -/
theorem c4_amended_compile_clock_independent (reg : Registry) (fuel : Nat)
    (t : CustomTemplate) (ctx : VarMap) (rt : CustomTemplate) (now1 now2 : JsDate)
    (hres : resolveInheritance reg fuel t = .ok rt)
    (hfree : listLbFree rt.sections = true) :
    compile reg fuel now1 t ctx = compile reg fuel now2 t ctx := by
  unfold compile
  rw [hres]
  cases hrv : resolveVariables rt.varDecls ctx with
  | error e => simp [hrv]
  | ok vars =>
    simp only [hrv]
    rw [compileSections_clock now1 now2 vars rt.sections hfree]

/-- Witness for the amended C4 at a concrete marker-free template. -/
theorem c4_amended_compile_clock_independent_witness :
    compile [] 1 ⟨2020, 0, 1, 0, 0, 0⟩
        ⟨⟨"t", "T", "d", "1.0.0", "custom", "standard", none⟩, [],
          [TemplateSection.mk "s" "S" "plain text" none none none none], none, []⟩ [] =
      compile [] 1 ⟨2021, 5, 15, 0, 0, 0⟩
        ⟨⟨"t", "T", "d", "1.0.0", "custom", "standard", none⟩, [],
          [TemplateSection.mk "s" "S" "plain text" none none none none], none, []⟩ [] :=
  c4_amended_compile_clock_independent [] 1
    ⟨⟨"t", "T", "d", "1.0.0", "custom", "standard", none⟩, [],
      [TemplateSection.mk "s" "S" "plain text" none none none none], none, []⟩ []
    ⟨⟨"t", "T", "d", "1.0.0", "custom", "standard", none⟩, [],
      [TemplateSection.mk "s" "S" "plain text" none none none none], none, []⟩
    ⟨2020, 0, 1, 0, 0, 0⟩ ⟨2021, 5, 15, 0, 0, 0⟩ rfl rfl

/-! ## Claim C5: stable sorting lemmas -/

theorem mem_insertByOrder (s x : TemplateSection) (l : List TemplateSection)
    (hx : x ∈ insertByOrder s l) : x ∈ l ∨ x = s := by
  induction l with
  | nil =>
    simp [insertByOrder] at hx
    exact Or.inr hx
  | cons t rest ih =>
    simp only [insertByOrder] at hx
    by_cases hle : sectionOrderVal s ≤ sectionOrderVal t
    · rw [if_pos hle] at hx
      rcases List.mem_cons.mp hx with rfl | hx2
      · exact Or.inr rfl
      · exact Or.inl hx2
    · rw [if_neg hle] at hx
      rcases List.mem_cons.mp hx with rfl | hx2
      · exact Or.inl (by simp)
      · rcases ih hx2 with h1 | h2
        · exact Or.inl (by simp [h1])
        · exact Or.inr h2

theorem insertByOrder_sorted (s : TemplateSection) (l : List TemplateSection)
    (hl : l.Pairwise (fun a b => sectionOrderVal a ≤ sectionOrderVal b)) :
    (insertByOrder s l).Pairwise (fun a b => sectionOrderVal a ≤ sectionOrderVal b) := by
  induction l with
  | nil => simp [insertByOrder]
  | cons t rest ih =>
    simp only [insertByOrder]
    by_cases hle : sectionOrderVal s ≤ sectionOrderVal t
    · rw [if_pos hle]
      refine List.Pairwise.cons ?_ hl
      intro x hx
      rcases List.mem_cons.mp hx with rfl | hx2
      · exact hle
      · exact le_trans hle (List.rel_of_pairwise_cons hl hx2)
    · rw [if_neg hle]
      have hts : sectionOrderVal t ≤ sectionOrderVal s := le_of_not_le hle
      refine List.Pairwise.cons ?_ (ih (List.Pairwise.of_cons hl))
      intro x hx
      rcases mem_insertByOrder s x rest hx with h1 | rfl
      · exact List.rel_of_pairwise_cons hl h1
      · exact hts

theorem sortByOrder_sorted (l : List TemplateSection) :
    (sortByOrder l).Pairwise (fun a b => sectionOrderVal a ≤ sectionOrderVal b) := by
  induction l with
  | nil => simp [sortByOrder]
  | cons s rest ih => exact insertByOrder_sorted s (sortByOrder rest) ih

theorem filter_insertByOrder (s : TemplateSection) (l : List TemplateSection) (k : Int)
    (hl : l.Pairwise (fun a b => sectionOrderVal a ≤ sectionOrderVal b)) :
    (insertByOrder s l).filter (fun t => sectionOrderVal t == k) =
      if sectionOrderVal s == k then s :: l.filter (fun t => sectionOrderVal t == k)
      else l.filter (fun t => sectionOrderVal t == k) := by
  induction l with
  | nil =>
    simp only [insertByOrder, List.filter]
    cases hk : (sectionOrderVal s == k) <;> simp [hk]
  | cons t rest ih =>
    simp only [insertByOrder]
    by_cases hle : sectionOrderVal s ≤ sectionOrderVal t
    · rw [if_pos hle]
      cases hk : (sectionOrderVal s == k) <;> simp [List.filter, hk]
    · rw [if_neg hle]
      have hts : sectionOrderVal t < sectionOrderVal s := lt_of_not_le hle
      have ihr := ih (List.Pairwise.of_cons hl)
      cases hk : (sectionOrderVal s == k) with
      | true =>
        have hsk : sectionOrderVal s = k := by simpa using hk
        have htk : (sectionOrderVal t == k) = false := by
          simp only [beq_eq_false_iff_ne, ne_eq]
          intro habs
          rw [habs, ← hsk] at hts
          exact lt_irrefl _ hts
        rw [hk] at ihr
        simp only [if_true] at ihr
        simp [List.filter, htk, hk, ihr]
      | false =>
        rw [hk] at ihr
        simp only [Bool.false_eq_true, if_false] at ihr
        cases htk : (sectionOrderVal t == k) <;> simp [List.filter, htk, ihr]

theorem sortByOrder_filter (l : List TemplateSection) (k : Int) :
    (sortByOrder l).filter (fun t => sectionOrderVal t == k) =
      l.filter (fun t => sectionOrderVal t == k) := by
  induction l with
  | nil => rfl
  | cons s rest ih =>
    show (insertByOrder s (sortByOrder rest)).filter (fun t => sectionOrderVal t == k) = _
    rw [filter_insertByOrder s (sortByOrder rest) k (sortByOrder_sorted rest)]
    cases hk : (sectionOrderVal s == k) with
    | true => simp [List.filter, hk, ih]
    | false => simp [List.filter, hk, ih]

/-! ## Claim C5: seeding and overlay characterization -/

theorem mergeOneSection_id (f : List TemplateSection → List TemplateSection → List TemplateSection)
    (e s : TemplateSection) :
    TemplateSection.id (mergeOneSection f e s) = TemplateSection.id s := by
  cases s
  rfl

theorem updateSec_append (acc : List TemplateSection) (s : TemplateSection)
    (h : ∀ a ∈ acc, TemplateSection.id a ≠ TemplateSection.id s) :
    updateSec acc s = acc ++ [s] := by
  induction acc with
  | nil => rfl
  | cons t rest ih =>
    have ht : TemplateSection.id t ≠ TemplateSection.id s := h t (by simp)
    simp only [updateSec, ht, if_false]
    rw [ih (fun a ha => h a (by simp [ha]))]
    rfl

theorem seedParents_eq (parent : List TemplateSection) :
    ∀ acc, (parent.map TemplateSection.id).Nodup →
      (∀ p ∈ parent, ∀ a ∈ acc, TemplateSection.id a ≠ TemplateSection.id p) →
      List.foldl updateSec acc parent = acc ++ parent := by
  induction parent with
  | nil => intro acc _ _; simp
  | cons p rest ih =>
    intro acc hnd hdisj
    have hupd : updateSec acc p = acc ++ [p] :=
      updateSec_append acc p (hdisj p (by simp))
    show List.foldl updateSec (updateSec acc p) rest = acc ++ p :: rest
    rw [hupd]
    have hnd' : (rest.map TemplateSection.id).Nodup := by
      simp only [List.map_cons, List.nodup_cons] at hnd
      exact hnd.2
    have hpnotin : TemplateSection.id p ∉ rest.map TemplateSection.id := by
      simp only [List.map_cons, List.nodup_cons] at hnd
      exact hnd.1
    have hdisj' : ∀ q ∈ rest, ∀ a ∈ acc ++ [p],
        TemplateSection.id a ≠ TemplateSection.id q := by
      intro q hq a ha
      rcases List.mem_append.mp ha with h1 | h2
      · exact hdisj q (by simp [hq]) a h1
      · have : a = p := by simpa using h2
        subst this
        intro habs
        exact hpnotin (by rw [habs]; exact List.mem_map_of_mem TemplateSection.id hq)
    rw [ih (acc ++ [p]) hnd' hdisj']
    simp

theorem findSec_eq_none (acc : List TemplateSection) (i : String)
    (h : ∀ a ∈ acc, TemplateSection.id a ≠ i) : findSec acc i = none := by
  apply List.find?_eq_none.mpr
  intro a ha
  simp only [beq_iff_eq]
  exact h a ha

theorem updateSec_map_id_of_mem (v : TemplateSection) :
    ∀ acc, (∃ a ∈ acc, TemplateSection.id a = TemplateSection.id v) →
      (updateSec acc v).map TemplateSection.id = acc.map TemplateSection.id := by
  intro acc
  induction acc with
  | nil =>
    intro h
    obtain ⟨a, ha, _⟩ := h
    exact absurd ha (List.not_mem_nil a)
  | cons t rest ih =>
    intro h
    by_cases ht : TemplateSection.id t = TemplateSection.id v
    · simp [updateSec, ht]
    · simp only [updateSec, ht, if_false, List.map_cons]
      have hrest : ∃ a ∈ rest, TemplateSection.id a = TemplateSection.id v := by
        obtain ⟨a, ha, hai⟩ := h
        rcases List.mem_cons.mp ha with rfl | ha2
        · exact absurd hai ht
        · exact ⟨a, ha2, hai⟩
      rw [ih hrest]

theorem updateSec_map_merge (fuel : Nat) (s : TemplateSection) (rest : List TemplateSection)
    (hrest : ∀ c ∈ rest, TemplateSection.id c ≠ TemplateSection.id s) :
    ∀ (acc : List TemplateSection) (e : TemplateSection),
      (acc.map TemplateSection.id).Nodup →
      findSec acc (TemplateSection.id s) = some e →
      (updateSec acc (mergeOneSection (mergeSections fuel) e s)).map
          (fun a =>
            match rest.find? (fun c => TemplateSection.id c == TemplateSection.id a) with
            | some c => mergeOneSection (mergeSections fuel) a c
            | none => a) =
        acc.map (fun a =>
          match (s :: rest).find? (fun c => TemplateSection.id c == TemplateSection.id a) with
          | some c => mergeOneSection (mergeSections fuel) a c
          | none => a) := by
  intro acc
  induction acc with
  | nil =>
    intro e _ hfind
    simp [findSec, List.find?] at hfind
  | cons t acc' ih =>
    intro e hnd hfind
    have hvid : TemplateSection.id (mergeOneSection (mergeSections fuel) e s) =
        TemplateSection.id s := mergeOneSection_id _ e s
    by_cases htid : TemplateSection.id t = TemplateSection.id s
    · have hbeq : (TemplateSection.id t == TemplateSection.id s) = true := by
        simp [beq_iff_eq, htid]
      have hfind' : findSec (t :: acc') (TemplateSection.id s) = some t := by
        simp [findSec, List.find?, hbeq]
      have het : e = t := by
        rw [hfind'] at hfind
        exact (Option.some_inj.mp hfind).symm
      have hupd : updateSec (t :: acc') (mergeOneSection (mergeSections fuel) e s) =
          mergeOneSection (mergeSections fuel) e s :: acc' := by
        simp [updateSec, hvid, htid]
      rw [hupd]
      simp only [List.map_cons]
      have hfr : rest.find? (fun c => TemplateSection.id c ==
          TemplateSection.id (mergeOneSection (mergeSections fuel) e s)) = none := by
        apply List.find?_eq_none.mpr
        intro c hc
        simp only [beq_iff_eq, hvid]
        exact hrest c hc
      have hbeq2 : (TemplateSection.id s == TemplateSection.id t) = true := by
        simp [beq_iff_eq, htid.symm]
      have hfc : (s :: rest).find? (fun c => TemplateSection.id c ==
          TemplateSection.id t) = some s := by
        simp [List.find?, hbeq2]
      rw [hfr, het, hfc]
      congr 1
      apply List.map_congr_left
      intro a ha
      have haid : TemplateSection.id a ≠ TemplateSection.id s := by
        simp only [List.map_cons, List.nodup_cons] at hnd
        intro habs
        exact hnd.1 (by rw [htid, ← habs]; exact List.mem_map_of_mem TemplateSection.id ha)
      have hbeq3 : (TemplateSection.id s == TemplateSection.id a) = false := by
        simp only [beq_eq_false_iff_ne, ne_eq]
        exact fun habs => haid habs.symm
      simp [List.find?, hbeq3]
    · have hbeq : (TemplateSection.id t == TemplateSection.id s) = false := by
        simp only [beq_eq_false_iff_ne, ne_eq]
        exact htid
      have hfind' : findSec (t :: acc') (TemplateSection.id s) =
          findSec acc' (TemplateSection.id s) := by
        simp [findSec, List.find?, hbeq]
      rw [hfind'] at hfind
      have hupd : updateSec (t :: acc') (mergeOneSection (mergeSections fuel) e s) =
          t :: updateSec acc' (mergeOneSection (mergeSections fuel) e s) := by
        simp [updateSec, hvid, htid]
      rw [hupd]
      simp only [List.map_cons]
      have hnd' : (acc'.map TemplateSection.id).Nodup := by
        simp only [List.map_cons, List.nodup_cons] at hnd
        exact hnd.2
      rw [ih e hnd' hfind]
      have hbeq2 : (TemplateSection.id s == TemplateSection.id t) = false := by
        simp only [beq_eq_false_iff_ne, ne_eq]
        exact fun habs => htid habs.symm
      simp [List.find?, hbeq2]

theorem mergeFold (fuel : Nat) :
    ∀ (child acc : List TemplateSection),
      (acc.map TemplateSection.id).Nodup →
      (child.map TemplateSection.id).Nodup →
      List.foldl
          (fun acc s =>
            match findSec acc (TemplateSection.id s) with
            | some existing => updateSec acc (mergeOneSection (mergeSections fuel) existing s)
            | none => acc ++ [s]) acc child =
        acc.map (fun a =>
          match child.find? (fun c => TemplateSection.id c == TemplateSection.id a) with
          | some c => mergeOneSection (mergeSections fuel) a c
          | none => a) ++
        child.filter (fun c =>
          !(acc.any (fun a => TemplateSection.id a == TemplateSection.id c))) := by
  intro child
  induction child with
  | nil =>
    intro acc _ _
    simp [List.find?]
  | cons s rest ih =>
    intro acc hacc hc
    have hsrest : ∀ c ∈ rest, TemplateSection.id c ≠ TemplateSection.id s := by
      intro c hcm habs
      simp only [List.map_cons, List.nodup_cons] at hc
      exact hc.1 (by rw [← habs]; exact List.mem_map_of_mem TemplateSection.id hcm)
    have hcrest : (rest.map TemplateSection.id).Nodup := by
      simp only [List.map_cons, List.nodup_cons] at hc
      exact hc.2
    show List.foldl _ (match findSec acc (TemplateSection.id s) with
      | some existing => updateSec acc (mergeOneSection (mergeSections fuel) existing s)
      | none => acc ++ [s]) rest = _
    cases hfs : findSec acc (TemplateSection.id s) with
    | some e =>
      have hemem : e ∈ acc := List.mem_of_find?_eq_some hfs
      have heid : TemplateSection.id e = TemplateSection.id s := by
        have := List.find?_some hfs
        simpa [beq_iff_eq] using this
      have hids : (updateSec acc (mergeOneSection (mergeSections fuel) e s)).map
          TemplateSection.id = acc.map TemplateSection.id := by
        apply updateSec_map_id_of_mem
        exact ⟨e, hemem, by rw [heid, mergeOneSection_id]⟩
      have hnd1 : ((updateSec acc (mergeOneSection (mergeSections fuel) e s)).map
          TemplateSection.id).Nodup := by
        rw [hids]
        exact hacc
      rw [ih (updateSec acc (mergeOneSection (mergeSections fuel) e s)) hnd1 hcrest]
      have hmap := updateSec_map_merge fuel s rest hsrest acc e hacc hfs
      rw [hmap]
      have hfilter : rest.filter (fun c =>
          !((updateSec acc (mergeOneSection (mergeSections fuel) e s)).any
            (fun a => TemplateSection.id a == TemplateSection.id c))) =
          rest.filter (fun c =>
            !(acc.any (fun a => TemplateSection.id a == TemplateSection.id c))) := by
        apply List.filter_congr
        intro c _
        have h1 : ∀ (l : List TemplateSection),
            l.any (fun a => TemplateSection.id a == TemplateSection.id c) =
              (l.map TemplateSection.id).any (fun i => i == TemplateSection.id c) := by
          intro l
          induction l with
          | nil => rfl
          | cons x xs ihl => simp [List.any_cons, ihl]
        rw [h1, h1, hids]
      rw [hfilter]
      have hskip : (s :: rest).filter (fun c =>
          !(acc.any (fun a => TemplateSection.id a == TemplateSection.id c))) =
          rest.filter (fun c =>
            !(acc.any (fun a => TemplateSection.id a == TemplateSection.id c))) := by
        have hany : acc.any (fun a => TemplateSection.id a == TemplateSection.id s) = true :=
          List.any_eq_true.mpr ⟨e, hemem, by simp [beq_iff_eq, heid]⟩
        simp [List.filter, hany]
      rw [hskip]
    | none =>
      have hnone : ∀ a ∈ acc, TemplateSection.id a ≠ TemplateSection.id s := by
        intro a ha
        have := List.find?_eq_none.mp hfs a ha
        simpa [beq_iff_eq] using this
      have hnd1 : ((acc ++ [s]).map TemplateSection.id).Nodup := by
        rw [List.map_append]
        apply List.Nodup.append hacc (by simp)
        intro i hi hj
        simp only [List.map_cons, List.map_nil, List.mem_singleton] at hj
        obtain ⟨a, ha, rfl⟩ := List.mem_map.mp hi
        exact hnone a ha hj
      rw [ih (acc ++ [s]) hnd1 hcrest]
      have hmapapp : (acc ++ [s]).map (fun a =>
          match rest.find? (fun c => TemplateSection.id c == TemplateSection.id a) with
          | some c => mergeOneSection (mergeSections fuel) a c
          | none => a) =
          acc.map (fun a =>
            match rest.find? (fun c => TemplateSection.id c == TemplateSection.id a) with
            | some c => mergeOneSection (mergeSections fuel) a c
            | none => a) ++ [s] := by
        rw [List.map_append]
        congr 1
        have hfnone : rest.find? (fun c => TemplateSection.id c == TemplateSection.id s) =
            none := by
          apply List.find?_eq_none.mpr
          intro c hcm
          simp only [beq_iff_eq]
          exact hsrest c hcm
        simp [hfnone]
      rw [hmapapp]
      have hmapeq : acc.map (fun a =>
          match rest.find? (fun c => TemplateSection.id c == TemplateSection.id a) with
          | some c => mergeOneSection (mergeSections fuel) a c
          | none => a) =
          acc.map (fun a =>
            match (s :: rest).find? (fun c => TemplateSection.id c == TemplateSection.id a) with
            | some c => mergeOneSection (mergeSections fuel) a c
            | none => a) := by
        apply List.map_congr_left
        intro a ha
        have hbeq : (TemplateSection.id s == TemplateSection.id a) = false := by
          simp only [beq_eq_false_iff_ne, ne_eq]
          exact fun habs => hnone a ha habs.symm
        simp [List.find?, hbeq]
      rw [hmapeq]
      have hfiltereq : rest.filter (fun c =>
          !((acc ++ [s]).any (fun a => TemplateSection.id a == TemplateSection.id c))) =
          rest.filter (fun c =>
            !(acc.any (fun a => TemplateSection.id a == TemplateSection.id c))) := by
        apply List.filter_congr
        intro c hcm
        have hbeq : (TemplateSection.id s == TemplateSection.id c) = false := by
          simp only [beq_eq_false_iff_ne, ne_eq]
          exact fun habs => hsrest c hcm habs.symm
        cases hae : acc.any (fun a => TemplateSection.id a == TemplateSection.id c) <;>
          simp [List.any_append, List.any_cons, hae, hbeq]
      rw [hfiltereq]
      have hkeep : (s :: rest).filter (fun c =>
          !(acc.any (fun a => TemplateSection.id a == TemplateSection.id c))) =
          s :: rest.filter (fun c =>
            !(acc.any (fun a => TemplateSection.id a == TemplateSection.id c))) := by
        have hany : acc.any (fun a => TemplateSection.id a == TemplateSection.id s) = false := by
          simp only [List.any_eq_false, beq_iff_eq]
          exact fun a ha => hnone a ha
        simp [List.filter, hany]
      rw [hkeep]
      simp

/-- Claim C5: under unique sibling ids, the merged section list is
obtained by seeding the parent sections first, overlaying each same-id
child onto its parent entry field-by-field (`mergeOneSection`, recursing
into nested lists), and appending new child ids in child order; the
final list is sorted ascending by `order` (a missing `order` reads as
0), and for every sort key the subsequence with that key equals the one
of the pre-sort merge-insertion list — i.e. ties keep merge-insertion
order (parent-first, then new child ids). -/
theorem c5_merge_sections_sorted_stable (fuel : Nat) (parent child : List TemplateSection)
    (hp : (parent.map TemplateSection.id).Nodup)
    (hc : (child.map TemplateSection.id).Nodup) :
    (mergeSections (fuel + 1) parent child).Pairwise
        (fun a b => sectionOrderVal a ≤ sectionOrderVal b) ∧
      ∀ k : Int,
        (mergeSections (fuel + 1) parent child).filter (fun t => sectionOrderVal t == k) =
          (parent.map (fun p =>
              match child.find? (fun c => TemplateSection.id c == TemplateSection.id p) with
              | some c => mergeOneSection (mergeSections fuel) p c
              | none => p) ++
            child.filter (fun c =>
              !(parent.any (fun p => TemplateSection.id p == TemplateSection.id c)))).filter
            (fun t => sectionOrderVal t == k) := by
  have hseed : List.foldl updateSec [] parent = parent := by
    have h := seedParents_eq parent [] hp
      (by intro p _ a ha; exact absurd ha (List.not_mem_nil a))
    simpa using h
  have hfold := mergeFold fuel child parent hp hc
  simp only [mergeSections]
  rw [hseed, hfold]
  exact ⟨sortByOrder_sorted _, fun k => sortByOrder_filter _ k⟩

/-- Witness for C5: a parent with sections `a` (order 2) and `b`
(order 1) merged with a child overriding `b`; the merged list is sorted
by order with the overridden `b` first. -/
theorem c5_merge_sections_sorted_stable_witness :
    (mergeSections 1
        [TemplateSection.mk "a" "A" "" (some 2) none none none,
         TemplateSection.mk "b" "B" "" (some 1) none none none]
        [TemplateSection.mk "b" "B2" "x" none none none none]).Pairwise
        (fun a b => sectionOrderVal a ≤ sectionOrderVal b) ∧
      ∀ k : Int,
        (mergeSections 1
            [TemplateSection.mk "a" "A" "" (some 2) none none none,
             TemplateSection.mk "b" "B" "" (some 1) none none none]
            [TemplateSection.mk "b" "B2" "x" none none none none]).filter
            (fun t => sectionOrderVal t == k) =
          ([TemplateSection.mk "a" "A" "" (some 2) none none none,
            TemplateSection.mk "b" "B" "" (some 1) none none none].map (fun p =>
              match [TemplateSection.mk "b" "B2" "x" none none none none].find?
                  (fun c => TemplateSection.id c == TemplateSection.id p) with
              | some c => mergeOneSection (mergeSections 0) p c
              | none => p) ++
            [TemplateSection.mk "b" "B2" "x" none none none none].filter (fun c =>
              !([TemplateSection.mk "a" "A" "" (some 2) none none none,
                 TemplateSection.mk "b" "B" "" (some 1) none none none].any
                (fun p => TemplateSection.id p == TemplateSection.id c)))).filter
            (fun t => sectionOrderVal t == k) :=
  c5_merge_sections_sorted_stable 0
    [TemplateSection.mk "a" "A" "" (some 2) none none none,
     TemplateSection.mk "b" "B" "" (some 1) none none none]
    [TemplateSection.mk "b" "B2" "x" none none none none]
    (by decide) (by decide)

/-! ## Claim C6: first-occurrence analysis inside a loop body -/

theorem isWordChar_not_at (c : Char) (h : isWordChar c = true) : c ≠ '@' := by
  intro hc
  subst hc
  simp [isWordChar] at h

theorem isWordChar_not_slash (c : Char) (h : isWordChar c = true) : c ≠ '/' := by
  intro hc
  subst hc
  simp [isWordChar] at h

theorem isJsSpace_of_word (c : Char) (h : isWordChar c = true) : isJsSpace c = false := by
  cases hs : isJsSpace c with
  | false => rfl
  | true =>
    exfalso
    have hcs := hs
    simp only [isJsSpace, Bool.or_eq_true, decide_eq_true_eq] at hcs
    rcases hcs with ((((rfl | rfl) | rfl) | rfl) | rfl) | rfl <;> simp [isWordChar] at h

theorem splitSub_brace_seg (pat' m rest : List Char) (hm : lbFree m) (hmne : m ≠ [])
    (h1 : isPre ('\x7b' :: '\x7b' :: pat') ('\x7b' :: '\x7b' :: (m ++ rest)) = false) :
    splitSub ('\x7b' :: '\x7b' :: pat') ('\x7b' :: '\x7b' :: (m ++ rest)) =
      Option.map (fun pr => ('\x7b' :: '\x7b' :: (m ++ pr.1), pr.2))
        (splitSub ('\x7b' :: '\x7b' :: pat') rest) := by
  obtain ⟨m0, m', hm0⟩ : ∃ m0 m', m = m0 :: m' := by
    cases hd : m with
    | nil => exact absurd hd hmne
    | cons m0 m' => exact ⟨m0, m', rfl⟩
  have hm0lb : m0 ≠ '\x7b' := by
    intro habs
    exact hm (by rw [hm0, habs]; simp)
  have h2 : isPre ('\x7b' :: '\x7b' :: pat') ('\x7b' :: (m ++ rest)) = false := by
    rw [hm0]
    simp only [List.cons_append, isPre, List.isPrefixOf, Bool.and_eq_true, beq_iff_eq]
    cases hb : ('\x7b' == m0 : Bool) with
    | false => simp
    | true =>
      exact absurd (eq_of_beq hb).symm hm0lb
  rw [splitSub_cons_neg _ _ _ h1, splitSub_cons_neg _ _ _ h2,
    splitSub_append_lbFree ('\x7b' :: '\x7b' :: pat') rfl m hm rest]
  cases splitSub ('\x7b' :: '\x7b' :: pat') rest with
  | none => rfl
  | some pr => cases pr with | mk a b => rfl

theorem string_data_inj (a b : String) (h : a.data = b.data) : a = b := by
  have h2 := congrArg String.mk h
  rwa [string_mk_data, string_mk_data] at h2

theorem isPre_wordtag_ne (wpat f : String) (r1 r2 : List Char)
    (hwp : wordOnly wpat) (hf : wordOnly f) (hne : wpat ≠ f) :
    isPre ('\x7b' :: '\x7b' :: (wpat.data ++ '\x7d' :: '\x7d' :: r1))
      ('\x7b' :: '\x7b' :: (f.data ++ '\x7d' :: '\x7d' :: r2)) = false := by
  cases hp : isPre ('\x7b' :: '\x7b' :: (wpat.data ++ '\x7d' :: '\x7d' :: r1))
      ('\x7b' :: '\x7b' :: (f.data ++ '\x7d' :: '\x7d' :: r2)) with
  | false => rfl
  | true =>
    exfalso
    have hp2 : isPre (wpat.data ++ '\x7d' :: '\x7d' :: r1)
        (f.data ++ '\x7d' :: '\x7d' :: r2) = true := by
      simpa [isPre, List.isPrefixOf] using hp
    have hdata := word_rbrace_bound wpat.data f.data ('\x7d' :: r1) ('\x7d' :: r2) hwp hf hp2
    exact hne (string_data_inj wpat f hdata)

theorem isPre_sym_at_word (d : Char) (p' : List Char) (hd : isWordChar d = false)
    (f : String) (hf : wordOnly f) (hne : f.data ≠ []) (x : List Char) :
    isPre ('\x7b' :: '\x7b' :: d :: p') ('\x7b' :: '\x7b' :: (f.data ++ x)) = false := by
  obtain ⟨f0, f', hf0⟩ : ∃ f0 f', f.data = f0 :: f' := by
    cases hdd : f.data with
    | nil => exact absurd hdd hne
    | cons f0 f' => exact ⟨f0, f', rfl⟩
  have hf0w : isWordChar f0 = true := hf f0 (by rw [hf0]; simp)
  have hdf : d ≠ f0 := by
    intro habs
    rw [habs, hf0w] at hd
    simp at hd
  rw [hf0]
  simp only [List.cons_append, isPre, List.isPrefixOf]
  cases hb : (d == f0 : Bool) with
  | false => simp [hb]
  | true => exact absurd (eq_of_beq hb) hdf

theorem lbFree_append (a b : List Char) (ha : lbFree a) (hb : lbFree b) : lbFree (a ++ b) := by
  intro hmem
  rcases List.mem_append.mp hmem with h | h
  · exact ha h
  · exact hb h

theorem boolStr_lbFree (b : Bool) : lbFree (boolStr b).data := by
  cases b <;> decide

theorem splitSub_lbFree_none (pat : List Char) (hp : pat.head? = some '\x7b') :
    ∀ m, lbFree m → splitSub pat m = none := by
  intro m
  induction m with
  | nil => intro _; rfl
  | cons c rest ih =>
    intro hm
    have hc : c ≠ '\x7b' := fun habs => hm (by simp [habs])
    have hfalse : isPre pat (c :: rest) = false := by
      cases pat with
      | nil => simp at hp
      | cons p ps =>
        have hpl : p = '\x7b' := by simpa using hp
        subst hpl
        simp only [isPre, List.isPrefixOf]
        cases hb : ('\x7b' == c : Bool) with
        | false => simp
        | true => exact absurd (eq_of_beq hb).symm hc
    rw [splitSub_cons_neg _ _ _ hfalse, ih (fun h => hm (by simp [h]))]
    rfl

theorem splitSub_brace_end (pat' m : List Char) (hm : lbFree m) (hmne : m ≠ [])
    (h1 : isPre ('\x7b' :: '\x7b' :: pat') ('\x7b' :: '\x7b' :: m) = false) :
    splitSub ('\x7b' :: '\x7b' :: pat') ('\x7b' :: '\x7b' :: m) = none := by
  obtain ⟨m0, m', hm0⟩ : ∃ m0 m', m = m0 :: m' := by
    cases hd : m with
    | nil => exact absurd hd hmne
    | cons m0 m' => exact ⟨m0, m', rfl⟩
  have hm0lb : m0 ≠ '\x7b' := by
    intro habs
    exact hm (by rw [hm0, habs]; simp)
  have h2 : isPre ('\x7b' :: '\x7b' :: pat') ('\x7b' :: m) = false := by
    rw [hm0]
    simp only [isPre, List.isPrefixOf]
    cases hb : ('\x7b' == m0 : Bool) with
    | false => simp
    | true => exact absurd (eq_of_beq hb).symm hm0lb
  rw [splitSub_cons_neg _ _ _ h1, splitSub_cons_neg _ _ _ h2,
    splitSub_lbFree_none ('\x7b' :: '\x7b' :: pat') rfl m hm]
  rfl

theorem replaceAll_mid (pat rep P Q : List Char) (hpat : pat.head? = some '\x7b')
    (hpne : pat ≠ []) (hP : lbFree P) (hQ : splitSub pat Q = none) :
    replaceAllL pat rep (P ++ (pat ++ Q)) = P ++ (rep ++ Q) := by
  have hsplit : splitSub pat (P ++ (pat ++ Q)) = some (P, Q) := by
    rw [splitSub_append_lbFree pat hpat P hP, splitSub_match pat Q hpne]
    simp
  rw [replaceAllL_single pat rep _ P Q hpne hsplit hQ]
  simp

theorem isPre_snd_word (p' : List Char) (f : String) (hf : wordOnly f)
    (hne : f.data ≠ []) (x : List Char) :
    isPre ('\x7b' :: '\x7b' :: p') ('\x7b' :: (f.data ++ x)) = false := by
  obtain ⟨f0, f', hf0⟩ : ∃ f0 f', f.data = f0 :: f' := by
    cases hdd : f.data with
    | nil => exact absurd hdd hne
    | cons f0 f' => exact ⟨f0, f', rfl⟩
  have hf0w : isWordChar f0 = true := hf f0 (by rw [hf0]; simp)
  have hdf : ('\x7b' : Char) ≠ f0 := fun habs => isWordChar_not_lbrace f0 hf0w habs.symm
  rw [hf0]
  simp only [List.cons_append, isPre, List.isPrefixOf]
  cases hb : (('\x7b' : Char) == f0 : Bool) with
  | false => simp [hb]
  | true => exact absurd (eq_of_beq hb) hdf

theorem replaceAllL_append_lbFree (pat rep : List Char) (hp : pat.head? = some lbrace)
    (m : List Char) (hm : lbFree m) (rest : List Char) :
    replaceAllL pat rep (m ++ rest) = m ++ replaceAllL pat rep rest :=
  scanRep_append_lbFree _ (tryPre_headLB pat rep hp) m hm rest

theorem replaceAll_after_segs (pat rep Q : List Char) (hpat : pat.head? = some '\x7b')
    (hpne : pat ≠ []) (hQ : splitSub pat Q = none) :
    ∀ segs : List (List Char), (∀ m ∈ segs, lbFree m) →
      replaceAllL pat rep (joinSegs segs (pat ++ Q)) = joinSegs segs (rep ++ Q) := by
  intro segs
  induction segs with
  | nil =>
    intro _
    exact replaceAll_mid pat rep [] Q hpat hpne (by intro h; cases h) hQ
  | cons m ms ih =>
    intro hall
    have hm : lbFree m := hall m (List.mem_cons_self m ms)
    have hms : ∀ x ∈ ms, lbFree x := fun x hx => hall x (List.mem_cons_of_mem m hx)
    show replaceAllL pat rep (m ++ joinSegs ms (pat ++ Q)) = m ++ joinSegs ms (rep ++ Q)
    rw [replaceAllL_append_lbFree pat rep hpat m hm, ih hms]

theorem splitSub_thisTag_none (f : String) (hf : wordOnly f) (hnef : f.data ≠ [])
    (hfthis : f ≠ "this") : splitSub thisTag (c6T1 f) = none := by
  have hm : lbFree (f.data ++ "\x7d\x7d>".data) :=
    lbFree_append _ _ (lbFree_of_word _ hf) (by decide)
  have hmne : f.data ++ "\x7d\x7d>".data ≠ [] :=
    fun h => hnef (List.append_eq_nil.mp h).1
  have e1 : splitSub thisTag (c6T1 f) =
      Option.map (fun pr => (('|' : Char) :: pr.1, pr.2)) (splitSub thisTag (c6G2 f)) :=
    splitSub_cons_neg _ _ _ rfl
  have e2 : splitSub thisTag (c6G2 f) =
      Option.map (fun pr => ('\x7b' :: '\x7b' :: ("@index\x7d\x7d|".data ++ pr.1), pr.2))
        (splitSub thisTag (c6G3 f)) :=
    splitSub_brace_seg _ _ _ (by decide) (by decide) rfl
  have e3 : splitSub thisTag (c6G3 f) =
      Option.map (fun pr => ('\x7b' :: '\x7b' :: ("@first\x7d\x7d|".data ++ pr.1), pr.2))
        (splitSub thisTag (c6G4 f)) :=
    splitSub_brace_seg _ _ _ (by decide) (by decide) rfl
  have e4 : splitSub thisTag (c6G4 f) =
      Option.map (fun pr => ('\x7b' :: '\x7b' :: ("@last\x7d\x7d|".data ++ pr.1), pr.2))
        (splitSub thisTag (c6Fld f)) :=
    splitSub_brace_seg _ _ _ (by decide) (by decide) rfl
  have e5 : splitSub thisTag (c6Fld f) = none :=
    splitSub_brace_end _ _ hm hmne
      (isPre_wordtag_ne "this" f [] ('>' :: []) (by decide) hf (Ne.symm hfthis))
  rw [e1, e2, e3, e4, e5]
  rfl

theorem splitSub_indexTag_none (f : String) (hf : wordOnly f) (hnef : f.data ≠ []) :
    splitSub indexTag (c6T2 f) = none := by
  have hm : lbFree (f.data ++ "\x7d\x7d>".data) :=
    lbFree_append _ _ (lbFree_of_word _ hf) (by decide)
  have hmne : f.data ++ "\x7d\x7d>".data ≠ [] :=
    fun h => hnef (List.append_eq_nil.mp h).1
  have e1 : splitSub indexTag (c6T2 f) =
      Option.map (fun pr => (('|' : Char) :: pr.1, pr.2)) (splitSub indexTag (c6G3 f)) :=
    splitSub_cons_neg _ _ _ rfl
  have e2 : splitSub indexTag (c6G3 f) =
      Option.map (fun pr => ('\x7b' :: '\x7b' :: ("@first\x7d\x7d|".data ++ pr.1), pr.2))
        (splitSub indexTag (c6G4 f)) :=
    splitSub_brace_seg _ _ _ (by decide) (by decide) rfl
  have e3 : splitSub indexTag (c6G4 f) =
      Option.map (fun pr => ('\x7b' :: '\x7b' :: ("@last\x7d\x7d|".data ++ pr.1), pr.2))
        (splitSub indexTag (c6Fld f)) :=
    splitSub_brace_seg _ _ _ (by decide) (by decide) rfl
  have e4 : splitSub indexTag (c6Fld f) = none :=
    splitSub_brace_end _ _ hm hmne (isPre_sym_at_word '@' _ (by decide) f hf hnef _)
  rw [e1, e2, e3, e4]
  rfl

theorem splitSub_firstTag_none (f : String) (hf : wordOnly f) (hnef : f.data ≠ []) :
    splitSub firstTag (c6T3 f) = none := by
  have hm : lbFree (f.data ++ "\x7d\x7d>".data) :=
    lbFree_append _ _ (lbFree_of_word _ hf) (by decide)
  have hmne : f.data ++ "\x7d\x7d>".data ≠ [] :=
    fun h => hnef (List.append_eq_nil.mp h).1
  have e1 : splitSub firstTag (c6T3 f) =
      Option.map (fun pr => (('|' : Char) :: pr.1, pr.2)) (splitSub firstTag (c6G4 f)) :=
    splitSub_cons_neg _ _ _ rfl
  have e2 : splitSub firstTag (c6G4 f) =
      Option.map (fun pr => ('\x7b' :: '\x7b' :: ("@last\x7d\x7d|".data ++ pr.1), pr.2))
        (splitSub firstTag (c6Fld f)) :=
    splitSub_brace_seg _ _ _ (by decide) (by decide) rfl
  have e3 : splitSub firstTag (c6Fld f) = none :=
    splitSub_brace_end _ _ hm hmne (isPre_sym_at_word '@' _ (by decide) f hf hnef _)
  rw [e1, e2, e3]
  rfl

theorem splitSub_lastTag_none (f : String) (hf : wordOnly f) (hnef : f.data ≠ []) :
    splitSub lastTag (c6T4 f) = none := by
  have hm : lbFree (f.data ++ "\x7d\x7d>".data) :=
    lbFree_append _ _ (lbFree_of_word _ hf) (by decide)
  have hmne : f.data ++ "\x7d\x7d>".data ≠ [] :=
    fun h => hnef (List.append_eq_nil.mp h).1
  have e1 : splitSub lastTag (c6T4 f) =
      Option.map (fun pr => (('|' : Char) :: pr.1, pr.2)) (splitSub lastTag (c6Fld f)) :=
    splitSub_cons_neg _ _ _ rfl
  have e2 : splitSub lastTag (c6Fld f) = none :=
    splitSub_brace_end _ _ hm hmne (isPre_sym_at_word '@' _ (by decide) f hf hnef _)
  rw [e1, e2]
  rfl

theorem string_data_append (a b : String) : (a ++ b).data = a.data ++ b.data := by
  cases a
  cases b
  rfl

theorem renderItem_c6 (f : String) (hf : wordOnly f) (hnef : f.data ≠ [])
    (hfthis : f ≠ "this") (i n : Nat) (s : String) :
    renderItem (loopBody f) i n (Value.vObj [(f, Value.vStr s)]) =
      "<[object Object]|".data ++ ((toString i).data ++ ("|".data ++ ((boolStr (i == 0)).data
        ++ ("|".data ++ ((boolStr (i == n - 1)).data ++ ("|".data
          ++ (s.data ++ ">".data))))))) := by
  have hpne5 : (obrace ++ f.data) ++ cbrace ≠ [] :=
    fun h => absurd (List.append_eq_nil.mp h).2 (by decide)
  have hQ5 : splitSub ((obrace ++ f.data) ++ cbrace) ('>' :: []) = none := by
    rw [splitSub_cons_neg ((obrace ++ f.data) ++ cbrace) '>' [] rfl]
    rfl
  have s1 : replaceAllL thisTag "[object Object]".data (loopBody f) =
      joinSegs ("<".data :: []) ("[object Object]".data ++ c6T1 f) :=
    replaceAll_after_segs thisTag "[object Object]".data (c6T1 f) rfl (by decide)
      (splitSub_thisTag_none f hf hnef hfthis) ("<".data :: [])
      (by intro m hm; simp at hm; subst hm; decide)
  have s2 : replaceAllL indexTag (toString i).data
        (joinSegs ("<".data :: []) ("[object Object]".data ++ c6T1 f)) =
      joinSegs ("<".data :: "[object Object]".data :: "|".data :: [])
        ((toString i).data ++ c6T2 f) :=
    replaceAll_after_segs indexTag (toString i).data (c6T2 f) rfl (by decide)
      (splitSub_indexTag_none f hf hnef) ("<".data :: "[object Object]".data :: "|".data :: [])
      (by intro m hm; simp at hm; rcases hm with rfl | rfl | rfl <;> decide)
  have s3 : replaceAllL firstTag (boolStr (i == 0)).data
        (joinSegs ("<".data :: "[object Object]".data :: "|".data :: [])
          ((toString i).data ++ c6T2 f)) =
      joinSegs ("<".data :: "[object Object]".data :: "|".data
          :: (toString i).data :: "|".data :: [])
        ((boolStr (i == 0)).data ++ c6T3 f) :=
    replaceAll_after_segs firstTag (boolStr (i == 0)).data (c6T3 f) rfl (by decide)
      (splitSub_firstTag_none f hf hnef)
      ("<".data :: "[object Object]".data :: "|".data :: (toString i).data :: "|".data :: [])
      (by intro m hm; simp at hm
          rcases hm with rfl | rfl | rfl | rfl | rfl
          · decide
          · decide
          · decide
          · exact natRepr_lbFree i
          · decide)
  have s4 : replaceAllL lastTag (boolStr (i == n - 1)).data
        (joinSegs ("<".data :: "[object Object]".data :: "|".data
            :: (toString i).data :: "|".data :: [])
          ((boolStr (i == 0)).data ++ c6T3 f)) =
      joinSegs ("<".data :: "[object Object]".data :: "|".data :: (toString i).data
          :: "|".data :: (boolStr (i == 0)).data :: "|".data :: [])
        ((boolStr (i == n - 1)).data ++ c6T4 f) :=
    replaceAll_after_segs lastTag (boolStr (i == n - 1)).data (c6T4 f) rfl (by decide)
      (splitSub_lastTag_none f hf hnef)
      ("<".data :: "[object Object]".data :: "|".data :: (toString i).data
        :: "|".data :: (boolStr (i == 0)).data :: "|".data :: [])
      (by intro m hm; simp at hm
          rcases hm with rfl | rfl | rfl | rfl | rfl | rfl | rfl
          · decide
          · decide
          · decide
          · exact natRepr_lbFree i
          · decide
          · exact boolStr_lbFree _
          · decide)
  have s5 : replaceAllL ((obrace ++ f.data) ++ cbrace) s.data
        (joinSegs ("<".data :: "[object Object]".data :: "|".data :: (toString i).data
            :: "|".data :: (boolStr (i == 0)).data :: "|".data :: [])
          ((boolStr (i == n - 1)).data ++ c6T4 f)) =
      joinSegs ("<".data :: "[object Object]".data :: "|".data :: (toString i).data
          :: "|".data :: (boolStr (i == 0)).data :: "|".data
          :: (boolStr (i == n - 1)).data :: "|".data :: [])
        (s.data ++ ">".data) := by
    have h := replaceAll_after_segs ((obrace ++ f.data) ++ cbrace) s.data ">".data rfl
      hpne5 hQ5
      ("<".data :: "[object Object]".data :: "|".data :: (toString i).data
        :: "|".data :: (boolStr (i == 0)).data :: "|".data
        :: (boolStr (i == n - 1)).data :: "|".data :: [])
      (by intro m hm; simp at hm
          rcases hm with rfl | rfl | rfl | rfl | rfl | rfl | rfl | rfl | rfl
          · decide
          · decide
          · decide
          · exact natRepr_lbFree i
          · decide
          · exact boolStr_lbFree _
          · decide
          · exact boolStr_lbFree _
          · decide)
    have hgrp : ((obrace ++ f.data) ++ cbrace) ++ ">".data = c6Fld f := by
      rw [List.append_assoc, List.append_assoc]
      rfl
    rw [hgrp] at h
    exact h
  show replaceAllL ((obrace ++ f.data) ++ cbrace) s.data
      (replaceAllL lastTag (boolStr (i == n - 1)).data
        (replaceAllL firstTag (boolStr (i == 0)).data
          (replaceAllL indexTag (toString i).data
            (replaceAllL thisTag "[object Object]".data (loopBody f))))) =
    "<[object Object]|".data ++ ((toString i).data ++ ("|".data ++ ((boolStr (i == 0)).data
      ++ ("|".data ++ ((boolStr (i == n - 1)).data ++ ("|".data
        ++ (s.data ++ ">".data)))))))
  rw [s1, s2, s3, s4, s5]
  rfl

theorem renderEachGo_c6 (f : String) (hf : wordOnly f) (hnef : f.data ≠ [])
    (hfthis : f ≠ "this") (n : Nat) :
    ∀ (ss : List String) (i : Nat),
      renderEachGo (loopBody f) n i (ss.map fun s => Value.vObj [(f, Value.vStr s)]) =
        loopExpected n i ss := by
  intro ss
  induction ss with
  | nil => intro i; rfl
  | cons s rest ih =>
    intro i
    show renderItem (loopBody f) i n (Value.vObj [(f, Value.vStr s)]) ++
        renderEachGo (loopBody f) n (i + 1) (rest.map fun s => Value.vObj [(f, Value.vStr s)]) =
      loopExpected n i (s :: rest)
    rw [renderItem_c6 f hf hnef hfthis i n s, ih (i + 1)]
    show _ = ("<[object Object]|" ++ toString i ++ "|" ++ boolStr (i == 0) ++ "|"
        ++ boolStr (i == n - 1) ++ "|" ++ s ++ ">").data ++ loopExpected n (i + 1) rest
    simp [string_data_append, List.append_assoc]

theorem scanAux_full (f : List Char → Option (List Char × Nat)) (a : List Char) :
    scanAux f a a.length = [] := by
  have h := scanAux_skip_all f a []
  rw [List.append_nil] at h
  exact h

theorem loopBody_endEach_grp (f : String) :
    loopBody f ++ endEachTag = "<".data ++ c6E1 f := by
  show "<".data ++ (thisTag ++ ("|".data ++ (indexTag ++ ("|".data ++ (firstTag ++ ("|".data
    ++ (lastTag ++ ("|".data ++ (obrace ++ ((f.data ++ (cbrace ++ ">".data))
      ++ endEachTag)))))))))) = "<".data ++ c6E1 f
  rw [List.append_assoc f.data (cbrace ++ ">".data) endEachTag]
  rfl

theorem splitSub_endEach_loopBody (f : String) (hf : wordOnly f) (hnef : f.data ≠ []) :
    splitSub endEachTag (loopBody f ++ endEachTag) = some (loopBody f, []) := by
  have u1 : splitSub endEachTag ("<".data ++ c6E1 f) =
      Option.map (fun pr => ("<".data ++ pr.1, pr.2)) (splitSub endEachTag (c6E1 f)) :=
    splitSub_append_lbFree endEachTag rfl "<".data (by decide) (c6E1 f)
  have u2 : splitSub endEachTag (c6E1 f) =
      Option.map (fun pr => ('\x7b' :: '\x7b' :: ("this\x7d\x7d|".data ++ pr.1), pr.2))
        (splitSub endEachTag (c6E2 f)) :=
    splitSub_brace_seg _ _ _ (by decide) (by decide) rfl
  have u3 : splitSub endEachTag (c6E2 f) =
      Option.map (fun pr => ('\x7b' :: '\x7b' :: ("@index\x7d\x7d|".data ++ pr.1), pr.2))
        (splitSub endEachTag (c6E3 f)) :=
    splitSub_brace_seg _ _ _ (by decide) (by decide) rfl
  have u4 : splitSub endEachTag (c6E3 f) =
      Option.map (fun pr => ('\x7b' :: '\x7b' :: ("@first\x7d\x7d|".data ++ pr.1), pr.2))
        (splitSub endEachTag (c6E4 f)) :=
    splitSub_brace_seg _ _ _ (by decide) (by decide) rfl
  have u5 : splitSub endEachTag (c6E4 f) =
      Option.map (fun pr => ('\x7b' :: '\x7b' :: ("@last\x7d\x7d|".data ++ pr.1), pr.2))
        (splitSub endEachTag (c6E0 f)) :=
    splitSub_brace_seg _ _ _ (by decide) (by decide) rfl
  have u6 : splitSub endEachTag (c6E0 f) =
      Option.map (fun pr => (('\x7b' : Char) :: pr.1, pr.2))
        (splitSub endEachTag ('\x7b' :: (f.data ++ ("\x7d\x7d>".data ++ endEachTag)))) :=
    splitSub_cons_neg _ _ _ (isPre_sym_at_word '/' _ (by decide) f hf hnef _)
  have u7 : splitSub endEachTag ('\x7b' :: (f.data ++ ("\x7d\x7d>".data ++ endEachTag))) =
      Option.map (fun pr => (('\x7b' : Char) :: pr.1, pr.2))
        (splitSub endEachTag (f.data ++ ("\x7d\x7d>".data ++ endEachTag))) :=
    splitSub_cons_neg _ _ _ (isPre_snd_word _ f hf hnef _)
  have u8 : splitSub endEachTag (f.data ++ ("\x7d\x7d>".data ++ endEachTag)) =
      Option.map (fun pr => (f.data ++ pr.1, pr.2))
        (splitSub endEachTag ("\x7d\x7d>".data ++ endEachTag)) :=
    splitSub_append_lbFree endEachTag rfl f.data (lbFree_of_word _ hf) _
  have u9 : splitSub endEachTag ("\x7d\x7d>".data ++ endEachTag) =
      Option.map (fun pr => ("\x7d\x7d>".data ++ pr.1, pr.2))
        (splitSub endEachTag endEachTag) :=
    splitSub_append_lbFree endEachTag rfl "\x7d\x7d>".data (by decide) endEachTag
  have u10 : splitSub endEachTag endEachTag = some ([], []) :=
    splitSub_match endEachTag [] (by decide)
  rw [loopBody_endEach_grp f, u1, u2, u3, u4, u5, u6, u7, u8, u9, u10]
  rfl

/-- Claim C6: for every `each` loop block over an array variable, within
each iteration's rendered body `this` is replaced by the stringified
element, `@index` by the zero-based position, `@first` and `@last` by
boolean strings for the first and last element, and each field of a
keyed-record element is substitutable by field name within that
iteration's body, regardless of the other variables in the resolved
mapping: the loop pass on a block over `items` whose body exercises all
five markers produces exactly the per-iteration expected output for
every field name, every element list and every surrounding mapping. -/
theorem c6_each_loop_substitutions (vars : VarMap) (f : String) (ss : List String)
    (hf : wordOnly f) (hnef : f.data ≠ []) (hfthis : f ≠ "this")
    (hl : lookupVar vars "items" =
      some (Value.vArr (ss.map fun s => Value.vObj [(f, Value.vStr s)]))) :
    loopPass vars (eachContent "items" f) = loopExpected ss.length 0 ss := by
  have hsp := splitSub_endEach_loopBody f hf hnef
  have htry : tryEach vars (eachContent "items" f) =
      some (renderEach (loopBody f) (ss.map fun s => Value.vObj [(f, Value.vStr s)]),
        7 + 1 + 5 + 2 + (loopBody f).length + 9 - 1) := by
    show (match splitSub endEachTag (loopBody f ++ endEachTag) with
          | some (body, _) =>
            some ((match lookupVar vars "items" with
                   | some (Value.vArr items) => renderEach body items
                   | _ => []),
              7 + 1 + 5 + 2 + body.length + 9 - 1)
          | none => none) =
      some (renderEach (loopBody f) (ss.map fun s => Value.vObj [(f, Value.vStr s)]),
        7 + 1 + 5 + 2 + (loopBody f).length + 9 - 1)
    rw [hsp, hl]
  have h1 : loopPass vars (eachContent "items" f) =
      renderEach (loopBody f) (ss.map fun s => Value.vObj [(f, Value.vStr s)]) ++
        scanAux (tryEach vars)
          ('\x7b' :: '#' :: 'e' :: 'a' :: 'c' :: 'h' :: ' ' :: 'i' :: 't' :: 'e' :: 'm'
            :: 's' :: '\x7d' :: '\x7d' :: (loopBody f ++ endEachTag))
          (7 + 1 + 5 + 2 + (loopBody f).length + 9 - 1) :=
    scanRep_cons_some (tryEach vars) '\x7b'
      ('\x7b' :: '#' :: 'e' :: 'a' :: 'c' :: 'h' :: ' ' :: 'i' :: 't' :: 'e' :: 'm'
        :: 's' :: '\x7d' :: '\x7d' :: (loopBody f ++ endEachTag)) _ _ htry
  have h2 : scanAux (tryEach vars)
      ('\x7b' :: '#' :: 'e' :: 'a' :: 'c' :: 'h' :: ' ' :: 'i' :: 't' :: 'e' :: 'm'
        :: 's' :: '\x7d' :: '\x7d' :: (loopBody f ++ endEachTag))
      (7 + 1 + 5 + 2 + (loopBody f).length + 9 - 1) = [] := by
    have he : endEachTag.length = 9 := rfl
    have hk : 7 + 1 + 5 + 2 + (loopBody f).length + 9 - 1 =
        ('\x7b' :: '#' :: 'e' :: 'a' :: 'c' :: 'h' :: ' ' :: 'i' :: 't' :: 'e' :: 'm'
          :: 's' :: '\x7d' :: '\x7d' :: (loopBody f ++ endEachTag)).length := by
      simp [List.length_append, List.length_cons, he]
      omega
    rw [hk]
    exact scanAux_full (tryEach vars) _
  rw [h1, h2, List.append_nil]
  show renderEachGo (loopBody f) (ss.map fun s => Value.vObj [(f, Value.vStr s)]).length 0
      (ss.map fun s => Value.vObj [(f, Value.vStr s)]) = loopExpected ss.length 0 ss
  rw [List.length_map]
  exact renderEachGo_c6 f hf hnef hfthis ss.length ss 0

/-- Concrete instance of C6: two single-field records over field `name`. -/
theorem c6_each_loop_substitutions_witness :
    loopPass [("items", Value.vArr [Value.vObj [("name", Value.vStr "Go")],
        Value.vObj [("name", Value.vStr "Rust")]])]
      (eachContent "items" "name") = loopExpected 2 0 ["Go", "Rust"] :=
  c6_each_loop_substitutions
    [("items", Value.vArr [Value.vObj [("name", Value.vStr "Go")],
        Value.vObj [("name", Value.vStr "Rust")]])]
    "name" ["Go", "Rust"] (by decide) (by decide) (by decide) rfl
